import Mathlib

set_option maxRecDepth 8192

/-!
Verification of the LLM-Mapping repository: a Scopus harvester
(`Scopus/0_compsci.py`, `Scopus/0_compsci_patch.py`) and a streaming
Binoculars annotator (`Binoculars/binoculars_analysis.py`,
`Binoculars/binoculars_analysis_patch.py`).

The Python scripts are shallowly embedded: JSON values become the
inductive `JVal`, Python dicts become association lists with
dict-faithful get/set, HTTP traffic becomes a scripted list of
responses consumed in order, and every fallible Python operation
(uncaught exception, unscripted response) returns `none` at the model
level.  Floats are modelled as rationals.
-/

/-- JSON value, as produced by Python's json / ijson loaders.  Numbers
(ints and floats alike) are modelled as rationals. -/
inductive JVal where
  | null
  | bool (b : Bool)
  | num (q : ℚ)
  | str (s : String)
  | arr (elems : List JVal)
  | obj (fields : List (String × JVal))

/-- Structural equality on JSON values (Python `==` on loaded JSON). -/
def JVal.beq : JVal → JVal → Bool
  | .null, .null => true
  | .bool a, .bool b => a == b
  | .num a, .num b => a == b
  | .str a, .str b => a == b
  | .arr a, .arr b => go a b
  | .obj a, .obj b => goObj a b
  | _, _ => false
where
  go : List JVal → List JVal → Bool
    | [], [] => true
    | x :: xs, y :: ys => JVal.beq x y && go xs ys
    | _, _ => false
  goObj : List (String × JVal) → List (String × JVal) → Bool
    | [], [] => true
    | (k, v) :: xs, (k', v') :: ys => k == k' && JVal.beq v v' && goObj xs ys
    | _, _ => false

instance : BEq JVal := ⟨JVal.beq⟩

mutual
theorem JVal.eq_of_jbeq : ∀ {a b : JVal}, JVal.beq a b = true → a = b
  | .null, .null, _ => rfl
  | .bool a, .bool b, h => by
      cases a <;> cases b <;> simp_all [JVal.beq]
  | .num _, .num _, h => by
      simp only [JVal.beq, beq_iff_eq] at h
      simp [h]
  | .str _, .str _, h => by
      simp only [JVal.beq, beq_iff_eq] at h
      simp [h]
  | .arr _, .arr _, h => by
      have := JVal.eqList_of_jbeq (by simpa [JVal.beq] using h)
      simp [this]
  | .obj _, .obj _, h => by
      have := JVal.eqObj_of_jbeq (by simpa [JVal.beq] using h)
      simp [this]

theorem JVal.eqList_of_jbeq : ∀ {xs ys : List JVal}, JVal.beq.go xs ys = true → xs = ys
  | [], [], _ => rfl
  | x :: xs, y :: ys, h => by
      have h' := h
      simp only [JVal.beq.go, Bool.and_eq_true] at h'
      have h1 := JVal.eq_of_jbeq h'.1
      have h2 := JVal.eqList_of_jbeq h'.2
      simp [h1, h2]

theorem JVal.eqObj_of_jbeq :
    ∀ {xs ys : List (String × JVal)}, JVal.beq.goObj xs ys = true → xs = ys
  | [], [], _ => rfl
  | (k, v) :: xs, (k', v') :: ys, h => by
      have h' := h
      simp only [JVal.beq.goObj, Bool.and_eq_true] at h'
      have h1 : k = k' := beq_iff_eq.mp h'.1.1
      have h2 := JVal.eq_of_jbeq h'.1.2
      have h3 := JVal.eqObj_of_jbeq h'.2
      simp [h1, h2, h3]
end

mutual
theorem JVal.jbeq_refl : ∀ a : JVal, JVal.beq a a = true
  | .null => rfl
  | .bool b => by simp [JVal.beq]
  | .num q => by simp [JVal.beq]
  | .str s => by simp [JVal.beq]
  | .arr xs => by simpa [JVal.beq] using JVal.jbeqList_refl xs
  | .obj fs => by simpa [JVal.beq] using JVal.jbeqObj_refl fs

theorem JVal.jbeqList_refl : ∀ xs : List JVal, JVal.beq.go xs xs = true
  | [] => rfl
  | x :: xs => by
      simp only [JVal.beq.go, Bool.and_eq_true]
      exact ⟨JVal.jbeq_refl x, JVal.jbeqList_refl xs⟩

theorem JVal.jbeqObj_refl : ∀ xs : List (String × JVal), JVal.beq.goObj xs xs = true
  | [] => rfl
  | (k, v) :: xs => by
      simp only [JVal.beq.goObj, Bool.and_eq_true]
      exact ⟨⟨by simp, JVal.jbeq_refl v⟩, JVal.jbeqObj_refl xs⟩
end

instance : LawfulBEq JVal where
  eq_of_beq := JVal.eq_of_jbeq
  rfl := JVal.jbeq_refl _

instance : DecidableEq JVal :=
  fun a b => decidable_of_iff ((a == b) = true) beq_iff_eq

/-- Python truthiness on a loaded JSON value (`if x:` / `not x`):
None, False, 0, the empty string, the empty list and the empty dict
are falsy, everything else truthy. -/
def JVal.truthy : JVal → Bool
  | .null => false
  | .bool b => b
  | .num q => q != 0
  | .str s => s != ""
  | .arr xs => !xs.isEmpty
  | .obj fs => !fs.isEmpty

/-- A Python dict loaded from JSON: an association list with the keys
unique, in insertion order. -/
abbrev PyDict := List (String × JVal)

/-- Python `d[k]` / `d.get(k)` lookup: the value at key `k`, if present. -/
def dictGet? : PyDict → String → Option JVal
  | [], _ => none
  | (k', v) :: rest, k => if k' == k then some v else dictGet? rest k

/-- Python `d.get(k, dflt)`. -/
def dictGetD (d : PyDict) (k : String) (dflt : JVal) : JVal :=
  (dictGet? d k).getD dflt

/-- Python `k in d` on a dict. -/
def hasKey (d : PyDict) (k : String) : Bool :=
  (dictGet? d k).isSome

/-- Python `d[k] = v` on a dict: replaces the value at an existing key in
place (first occurrence; keys are unique in a dict), otherwise appends
the binding at the end. -/
def dictSet : PyDict → String → JVal → PyDict
  | [], k, v => [(k, v)]
  | (k', v') :: rest, k, v =>
      if k' == k then (k', v) :: rest else (k', v') :: dictSet rest k v

theorem dictGet?_dictSet_same (d : PyDict) (k : String) (v : JVal) :
    dictGet? (dictSet d k v) k = some v := by
  induction d with
  | nil => simp [dictSet, dictGet?]
  | cons p rest ih =>
    obtain ⟨k', v'⟩ := p
    by_cases h : k' = k
    · simp [dictSet, dictGet?, h]
    · simp [dictSet, dictGet?, h, ih]

theorem dictGet?_dictSet_other (d : PyDict) (k k' : String) (v : JVal) (hne : k' ≠ k) :
    dictGet? (dictSet d k v) k' = dictGet? d k' := by
  induction d with
  | nil =>
    have hx : ¬(k = k') := fun hh => hne hh.symm
    simp [dictSet, dictGet?, hx]
  | cons p rest ih =>
    obtain ⟨k₀, v₀⟩ := p
    by_cases h : k₀ = k
    · subst h
      have hx : ¬(k₀ = k') := fun hh => hne hh.symm
      simp [dictSet, dictGet?, hx]
    · by_cases h' : k₀ = k'
      · subst h'
        simp [dictSet, dictGet?, h]
      · simp [dictSet, dictGet?, h, h', ih]

/-! ### Binoculars annotator (`Binoculars/binoculars_analysis.py`)

`process_file_streaming(input_file, output_file, bino)` makes a streaming
pass over the JSON array in the input file collecting newly computed
scores, and (if any) reloads the same file, merges the scores in by
`Scopus_ID`, and writes the merged document to the output location.
Both passes read the same input file, modelled as one list `doc`.
The external scorer `bino.compute_score` is a parameter
`scorer : JVal → Option ℚ`; `none` models a raised exception (caught and
logged per record in the streaming pass). -/

/-- Threshold `BINOCULARS_ACCURACY_THRESHOLD = 0.9015310749276843`
(optimized for f1-score), given in reduced-fraction form so that
comparisons evaluate in the kernel; `binoculars_accuracy_threshold_eq`
certifies it equals the source literal. -/
def BINOCULARS_ACCURACY_THRESHOLD : ℚ :=
  Rat.mk' 9015310749276843 10000000000000000 (by decide) (by decide)

theorem binoculars_accuracy_threshold_eq :
    BINOCULARS_ACCURACY_THRESHOLD = 0.9015310749276843 := by
  rw [show BINOCULARS_ACCURACY_THRESHOLD = ((9015310749276843 : ℚ) / 10000000000000000) from by
    rw [BINOCULARS_ACCURACY_THRESHOLD, Rat.mk'_eq_divInt, Rat.divInt_eq_div]; norm_num]
  norm_num

/-- Threshold `BINOCULARS_FPR_THRESHOLD = 0.8536432310785527`
(optimized for low-fpr), in reduced-fraction form;
`binoculars_fpr_threshold_eq` certifies it equals the source literal. -/
def BINOCULARS_FPR_THRESHOLD : ℚ :=
  Rat.mk' 8536432310785527 10000000000000000 (by decide) (by decide)

theorem binoculars_fpr_threshold_eq :
    BINOCULARS_FPR_THRESHOLD = 0.8536432310785527 := by
  rw [show BINOCULARS_FPR_THRESHOLD = ((8536432310785527 : ℚ) / 10000000000000000) from by
    rw [BINOCULARS_FPR_THRESHOLD, Rat.mk'_eq_divInt, Rat.divInt_eq_div]; norm_num]
  norm_num

/-- `accuracy_prediction = 0 if score >= BINOCULARS_ACCURACY_THRESHOLD else 1`
(0 for Human, 1 for AI). -/
def accuracy_prediction (score : ℚ) : ℕ :=
  if score ≥ BINOCULARS_ACCURACY_THRESHOLD then 0 else 1

/-- `fpr_prediction = 0 if score >= BINOCULARS_FPR_THRESHOLD else 1`. -/
def fpr_prediction (score : ℚ) : ℕ :=
  if score ≥ BINOCULARS_FPR_THRESHOLD then 0 else 1

/-- One element of `processed_items`: the dict built for a newly scored
article (its fields `Scopus_ID`, `Binoculars_Score`,
`Accuracy_Prediction`, `FPR_Prediction`). -/
structure ProcessedItem where
  scopus_id : JVal
  score : ℚ
  accuracyPred : ℕ
  fprPred : ℕ
deriving DecidableEq

/-- `"Binoculars_Score" in article and article["Binoculars_Score"] is not None`. -/
def hasNonNullScore (article : PyDict) : Bool :=
  match dictGet? article "Binoculars_Score" with
  | none => false
  | some v => !(v == JVal.null)

/-- The value the streaming pass would send to the scorer for this
article, or `none` if the article is skipped:
skip when it already has a non-null `Binoculars_Score`, and skip when
`abstract = article.get("Abstract", "")` satisfies
`not abstract or abstract == "N/A"`. -/
def scorerInput? (article : PyDict) : Option JVal :=
  if hasNonNullScore article then none
  else
    let abstract := dictGetD article "Abstract" (JVal.str "")
    if !abstract.truthy || abstract == JVal.str "N/A" then none
    else some abstract

/-- The streaming pass on one article: the `processed_item` appended for
it, if any.  A scorer exception (`scorer _ = none`) is caught, logged
and produces no item. -/
def processArticle (scorer : JVal → Option ℚ) (article : PyDict) : Option ProcessedItem :=
  match scorerInput? article with
  | none => none
  | some abstract =>
    match scorer abstract with
    | none => none
    | some score =>
        some { scopus_id := dictGetD article "Scopus_ID" (JVal.str "")
               score := score
               accuracyPred := accuracy_prediction score
               fprPred := fpr_prediction score }

/-- `processed_items` collected by the streaming pass over the array. -/
def processItems (scorer : JVal → Option ℚ) (doc : List PyDict) : List ProcessedItem :=
  doc.filterMap (processArticle scorer)

/-- Lookup in `scores_dict = {item['Scopus_ID']: item for item in processed_items}`:
in a dict comprehension a later item with the same key overrides an
earlier one. -/
def scoresDictLookup (items : List ProcessedItem) (k : JVal) : Option ProcessedItem :=
  items.foldl (fun acc it => if it.scopus_id == k then some it else acc) none

/-- The three field updates done on a matched article. -/
def setScores (article : PyDict) (it : ProcessedItem) : PyDict :=
  dictSet (dictSet (dictSet article "Binoculars_Score" (JVal.num it.score))
      "Accuracy_Prediction" (JVal.num it.accuracyPred))
    "FPR_Prediction" (JVal.num it.fprPred)

/-- The merge-loop body for one article of the reloaded document:
`if article.get('Scopus_ID') in scores_dict:` then
`scores = scores_dict[article['Scopus_ID']]` and the three fields are
set.  `article.get('Scopus_ID')` defaults to None (`JVal.null`); the
subsequent direct index `article['Scopus_ID']` raises KeyError
(modelled `none`) when the key is absent, which can happen when
`scores_dict` holds the key None. -/
def mergeArticle (items : List ProcessedItem) (article : PyDict) : Option PyDict :=
  if (scoresDictLookup items (dictGetD article "Scopus_ID" JVal.null)).isSome then
    match dictGet? article "Scopus_ID" with
    | none => none
    | some v =>
      match scoresDictLookup items v with
      | none => none
      | some it => some (setScores article it)
  else some article

/-- The merge loop over the whole reloaded document; `none` if any
iteration raises. -/
def mergeAll (items : List ProcessedItem) : List PyDict → Option (List PyDict)
  | [] => some []
  | a :: rest =>
    match mergeArticle items a with
    | none => none
    | some a' =>
      match mergeAll items rest with
      | none => none
      | some rest' => some (a' :: rest')

/-- A file path as used by the scripts: a directory, the `pathlib` stem
and the suffix (extension). -/
structure FPath where
  dir : String
  stem : String
  ext : String
deriving DecidableEq

/-- Observable filesystem effects of one annotator run. -/
inductive FsEvent where
  | mkdirP (dir : String)
  | write (path : FPath) (data : List PyDict)
deriving DecidableEq

/-- Result reported by `process_file_streaming`. -/
inductive RunResult where
  | noNewItems
  | mergeError
  | wrote (data : List PyDict)
deriving DecidableEq

/-- The paths written by a list of effects. -/
def writtenPaths (evs : List FsEvent) : List FPath :=
  evs.filterMap (fun e => match e with | .write p _ => some p | _ => none)

/-- `binoculars_analysis.py::process_file_streaming`: streaming pass,
no-op guard (`if not processed_items: return False`), reload + merge,
`output_file.parent.mkdir(parents=True, exist_ok=True)`, and the
`json.dump` to `output_file`.  The returned effects list records the
directory creation and the write, in order; a failure path produces no
effects. -/
def process_file_streaming (output_file : FPath) (doc : List PyDict)
    (scorer : JVal → Option ℚ) : RunResult × List FsEvent :=
  let processed_items := processItems scorer doc
  if processed_items.isEmpty then (RunResult.noNewItems, [])
  else
    match mergeAll processed_items doc with
    | none => (RunResult.mergeError, [])
    | some data =>
        (RunResult.wrote data, [FsEvent.mkdirP output_file.dir, FsEvent.write output_file data])

/-- The patch variant's write target:
`Path(".") / (input_file.stem + "_patched" + input_file.suffix)`. -/
def patchedPath (input_file : FPath) : FPath :=
  { dir := ".", stem := input_file.stem ++ "_patched", ext := input_file.ext }

/-- `binoculars_analysis_patch.py::process_file_streaming`: identical
streaming/merge logic, but the write goes to the `_patched` file in the
script directory; the `output_file` argument is not used by the write
step, and no directory is created. -/
def process_file_streaming_patch (input_file : FPath) (_output_file : FPath)
    (doc : List PyDict) (scorer : JVal → Option ℚ) : RunResult × List FsEvent :=
  let processed_items := processItems scorer doc
  if processed_items.isEmpty then (RunResult.noNewItems, [])
  else
    match mergeAll processed_items doc with
    | none => (RunResult.mergeError, [])
    | some data =>
        (RunResult.wrote data, [FsEvent.write (patchedPath input_file) data])

/-! ### Scopus harvester: checkpoint names and `resume_backup`
(`Scopus/0_compsci.py` lines 216-238; the patch has the identical
function).

Checkpoint files are named `MONTH_count_comp_23_25.json`; the final
bucket output is `MONTH_comp_23_25.json`.  `resume_backup` globs
`MONTH_*_comp_23_25.json` in the year directory, parses the segment
between the first and second underscore of each basename with `int()`,
takes the maximum, and loads the correspondingly named file. -/

/-- Python `s.split(sep)` for a single-character separator (on the
character list of the string). -/
def chSplit (sep : Char) : List Char → List (List Char)
  | [] => [[]]
  | c :: cs =>
    match chSplit sep cs with
    | [] => if c == sep then [[], []] else [[c]]
    | h :: t => if c == sep then [] :: h :: t else (c :: h) :: t

/-- One step of decimal accumulation: `acc * 10 + digit`, failing on a
non-digit. -/
def digitStep (acc : Option ℕ) (c : Char) : Option ℕ :=
  match acc with
  | none => none
  | some a => if c.isDigit then some (a * 10 + (c.toNat - 48)) else none

/-- Numeric value of a nonempty all-digit string; `none` otherwise. -/
def digitsVal? (cs : List Char) : Option ℕ :=
  if cs.isEmpty then none else cs.foldl digitStep (some 0)

/-- Python `int(s)` on a filename segment: an optional sign followed by
decimal digits.  (Python's `int` additionally strips surrounding
whitespace and accepts digit-group underscores and non-ASCII digits;
none of these can occur in a segment produced by splitting the names
this repository generates on underscores.) -/
def parsePyInt? (cs : List Char) : Option ℤ :=
  match cs with
  | [] => none
  | c :: rest =>
    if c = '-' then (digitsVal? rest).map (fun n => -(n : ℤ))
    else if c = '+' then (digitsVal? rest).map (fun n => (n : ℤ))
    else (digitsVal? (c :: rest)).map (fun n => (n : ℤ))

/-- The character for one decimal digit. -/
def digitChar (d : ℕ) : Char :=
  match d with
  | 0 => '0' | 1 => '1' | 2 => '2' | 3 => '3' | 4 => '4'
  | 5 => '5' | 6 => '6' | 7 => '7' | 8 => '8' | _ => '9'

/-- Decimal digits of `n`, most significant first (`str(n)` for a
natural number); the fuel argument `n + 1` dominates the number of
divisions by 10. -/
def natCharsAux : ℕ → ℕ → List Char
  | 0, _ => []
  | fuel + 1, n =>
    if n < 10 then [digitChar n]
    else natCharsAux fuel (n / 10) ++ [digitChar (n % 10)]

/-- Python `str(n)` for a natural number. -/
def natChars (n : ℕ) : List Char := natCharsAux (n + 1) n

/-- Python `str(i)` for an int. -/
def strOfInt (i : ℤ) : String :=
  ⟨if i < 0 then '-' :: natChars i.natAbs else natChars i.toNat⟩

/-- The checkpoint filename `f"{month}_{idx}_comp_23_25.json"`. -/
def checkpointName (month : String) (idx : ℤ) : String :=
  month ++ "_" ++ strOfInt idx ++ "_comp_23_25.json"

/-- The final bucket output filename `f"{month}_comp_23_25.json"`. -/
def finalOutputName (month : String) : String :=
  month ++ "_comp_23_25.json"

/-- Bool test that `p` is a prefix of `s`. -/
def prefixCh : List Char → List Char → Bool
  | [], _ => true
  | _ :: _, [] => false
  | p :: ps, c :: cs => p == c && prefixCh ps cs

/-- Bool test that `p` is a suffix of `s`. -/
def suffixCh (p s : List Char) : Bool := prefixCh p.reverse s.reverse

/-- Whether a basename matches the glob pattern
`f"{month}_*_comp_23_25.json"`: the literal prefix, the literal suffix,
and enough room between them for the `*` (which may match the empty
string). -/
def matchesBackupGlob (month : String) (name : String) : Bool :=
  prefixCh (month.data ++ ['_']) name.data &&
  suffixCh "_comp_23_25.json".data name.data &&
  decide (month.data.length + 1 + "_comp_23_25.json".data.length ≤ name.data.length)

/-- `resume_backup(year_dir, month)`: glob for the month's checkpoints
among the directory's basenames, parse `base.split("_")[1]` with
`int()` (parse failures are caught and skipped), take the maximum as
`start_offset`, and load the checkpoint of that name through
`fs : String → Option (List α)` (the per-year directory's file
contents; a missing file makes `open()` raise, modelled `none`).  With
no matching files, or none with a parsable count, the defaults
`(0, [])` are returned. -/
def resume_backup {α : Type} (dirFiles : List String) (fs : String → Option (List α))
    (month : String) : Option (ℤ × List α) :=
  let backup_files := dirFiles.filter (fun f => matchesBackupGlob month f)
  if backup_files.isEmpty then some (0, [])
  else
    let indices := backup_files.filterMap
      (fun bf => ((chSplit '_' bf.data).get? 1).bind parsePyInt?)
    match indices with
    | [] => some (0, [])
    | i :: is =>
      let start_offset := is.foldl max i
      match fs (checkpointName month start_offset) with
      | none => none
      | some articles => some (start_offset, articles)

/-- `BACKUP_INTERVAL = 500`. -/
def BACKUP_INTERVAL : ℤ := 500

/-- The harvester's per-bucket accumulation state: `monthly_articles`
and `total_processed`. -/
structure HarvestAcc where
  monthly_articles : List PyDict
  total_processed : ℤ

/-- The main loop's bookkeeping after one article is enriched
(`0_compsci.py` lines 296-302): append it, bump `total_processed`, and
when `total_processed % BACKUP_INTERVAL == 0` emit a checkpoint write
of the accumulated list under the name carrying `total_processed`. -/
def appendArticle (month : String) (metadata : PyDict) (st : HarvestAcc) :
    HarvestAcc × Option (String × List PyDict) :=
  let articles := st.monthly_articles ++ [metadata]
  let total := st.total_processed + 1
  (⟨articles, total⟩,
   if total % BACKUP_INTERVAL == 0 then some (checkpointName month total, articles)
   else none)

/-! ### Scopus harvester: HTTP model, enrichment calls, main loops

HTTP traffic is modelled by a script `net : List HResp` of responses
consumed one per `requests.get`, whatever the request; the session also
carries the credential pool state (`current_api_key_index`,
`len(API_KEYS)`) and a trace of the requests issued with the key index
used for each.  An empty script on a request, or any uncaught Python
exception, yields `none` at the model level.  The operator
pause/resume channel (`check_for_pause`) is modelled as silent. -/

/-- An HTTP request issued by the harvester (`COUNT = 200` articles per
search page). -/
inductive HReq where
  | search (query : String) (start : ℤ)
  | abstractReq (scopus_id : String)
  | searchRef (scopus_id : String)
deriving DecidableEq

/-- A scripted HTTP response: its status code, and the parsed JSON body
(`none` models a body on which `response.json()` raises). -/
structure HResp where
  status : ℕ
  body : Option JVal
deriving DecidableEq

/-- Session state threaded through all HTTP calls. -/
structure Sess where
  net : List HResp
  keyIdx : ℕ
  nKeys : ℕ
  trace : List (HReq × ℕ)
deriving DecidableEq

/-- `cycle_api_key()`: `current_api_key_index = (current_api_key_index + 1) % len(API_KEYS)`. -/
def cycle_api_key (s : Sess) : Sess :=
  { s with keyIdx := (s.keyIdx + 1) % s.nKeys }

/-- `requests.get(...)`: consume the next scripted response, recording
the request and the key index used. -/
def httpGet (r : HReq) (s : Sess) : Option (HResp × Sess) :=
  match s.net with
  | [] => none
  | resp :: rest => some (resp, { s with net := rest, trace := s.trace ++ [(r, s.keyIdx)] })

/-- Python `x.get(k, dflt)` on an arbitrary value: only a dict has
`.get`; any other receiver raises (modelled `none`). -/
def jGetD (v : JVal) (k : String) (dflt : JVal) : Option JVal :=
  match v with
  | .obj fields => some (dictGetD fields k dflt)
  | _ => none

/-- Bool test that `p` occurs inside `s`. -/
def infixCh (pat : List Char) : List Char → Bool
  | [] => prefixCh pat []
  | c :: cs => prefixCh pat (c :: cs) || infixCh pat cs

/-- Python `k in v` for a string `k`: key test on a dict, membership on
a list, substring test on a string; any other receiver raises
TypeError (modelled `none`). -/
def jHasKeyStr (v : JVal) (k : String) : Option Bool :=
  match v with
  | .obj fields => some (hasKey fields k)
  | .arr xs => some (xs.any (fun e => e == JVal.str k))
  | .str s => some (infixCh k.data s.data)
  | _ => none

/-- Python `s.replace(pat, rep)` for a nonempty `pat`, on character
lists; the fuel is the input length, which bounds the recursion. -/
def replaceAllAux : ℕ → List Char → List Char → List Char → List Char
  | 0, _, _, s => s
  | fuel + 1, pat, rep, s =>
    match s with
    | [] => []
    | c :: cs =>
      if prefixCh pat s then rep ++ replaceAllAux fuel pat rep (s.drop pat.length)
      else c :: replaceAllAux fuel pat rep cs

/-- Python `s.replace(pat, rep)` (for the nonempty patterns the scripts
use). -/
def pyReplace (s pat rep : String) : String :=
  ⟨replaceAllAux s.data.length pat.data rep.data s.data⟩

/-- Python `int(x)` applied to a loaded JSON value: truncation toward
zero for a number, digit parsing for a string, 1/0 for a bool; any
other argument raises (modelled `none`). -/
def pyIntCoerce? : JVal → Option ℤ
  | .num q => some (if q.num < 0 then -((q.num.natAbs / q.den : ℕ) : ℤ) else ((q.num.natAbs / q.den : ℕ) : ℤ))
  | .str s => parsePyInt? s.data
  | .bool b => some (if b then 1 else 0)
  | _ => none

/-- The record dict built by `fetch_metadata` from
`data = json_data["abstracts-retrieval-response"]`; `none` models an
uncaught exception while navigating an unexpected shape. -/
def buildMetadata (scopus_id : String) (data : JVal) : Option PyDict := do
  match data with
  | .obj dataF => do
    let core_data := dictGetD dataF "coredata" (JVal.obj [])
    let authors_section0 := dictGetD dataF "authors" JVal.null
    let authors_section := if authors_section0.truthy then authors_section0 else JVal.obj []
    let authors ← jGetD authors_section "author" (JVal.arr [])
    let affiliations0 := dictGetD dataF "affiliation" (JVal.arr [])
    let affiliations : List JVal :=
      match affiliations0 with
      | .arr xs => xs
      | v => if v.truthy then [v] else []
    let affiliation_name ←
      match affiliations with
      | [] => some (JVal.str "N/A")
      | a :: _ => jGetD a "affiliation-name" (JVal.str "N/A")
    let affiliation_country ←
      match affiliations with
      | [] => some (JVal.str "N/A")
      | a :: _ => jGetD a "affiliation-country" (JVal.str "N/A")
    let title ← jGetD core_data "dc:title" (JVal.str "N/A")
    let abstract ← jGetD core_data "dc:description" (JVal.str "N/A")
    let authorsList ←
      match authors with
      | .arr xs => xs.mapM (fun a => jGetD a "ce:indexed-name" (JVal.str "N/A"))
      | _ => some []
    let pubDate ← jGetD core_data "prism:coverDate" (JVal.str "N/A")
    let doi ← jGetD core_data "prism:doi" (JVal.str "N/A")
    let keywords ← jGetD core_data "authkeywords" (JVal.str "N/A")
    let cbc0 ← jGetD core_data "citedby-count" (JVal.num 0)
    let cbc ← pyIntCoerce? cbc0
    let source ← jGetD core_data "prism:publicationName" (JVal.str "N/A")
    some [("Scopus_ID", JVal.str scopus_id),
          ("Title", title),
          ("Abstract", abstract),
          ("Authors", JVal.arr authorsList),
          ("Affiliation_Name", affiliation_name),
          ("Affiliation_Country", affiliation_country),
          ("Publication_Date", pubDate),
          ("DOI", doi),
          ("Keywords", keywords),
          ("Cited_By_Count", JVal.num (cbc : ℚ)),
          ("Source", source)]
  | _ => none

/-- `fetch_metadata(scopus_id, retries=3)`: one GET per attempt; a 429
status, an unparsable body, a falsy body, or a body lacking
`abstracts-retrieval-response` cycles the key and retries; exhausting
the attempts returns Python `None` (the inner `none` of the result
pair). -/
def fetch_metadata (scopus_id : String) : ℕ → Sess → Option (Option PyDict × Sess)
  | 0, s => some (none, s)
  | n + 1, s => do
    let (resp, s1) ← httpGet (HReq.abstractReq scopus_id) s
    if resp.status == 429 then fetch_metadata scopus_id n (cycle_api_key s1)
    else
      match resp.body with
      | none => fetch_metadata scopus_id n (cycle_api_key s1)
      | some json_data =>
        if !json_data.truthy then fetch_metadata scopus_id n (cycle_api_key s1)
        else do
          let hk ← jHasKeyStr json_data "abstracts-retrieval-response"
          if !hk then fetch_metadata scopus_id n (cycle_api_key s1)
          else
            match json_data with
            | .obj fields =>
              match dictGet? fields "abstracts-retrieval-response" with
              | none => none
              | some data => (buildMetadata scopus_id data).map (fun md => (some md, s1))
            | _ => none

/-- `fetch_abstract(scopus_id, retries=3)`: same retry discipline;
exhausting the attempts returns the string `"N/A"`. -/
def fetch_abstract (scopus_id : String) : ℕ → Sess → Option (JVal × Sess)
  | 0, s => some (JVal.str "N/A", s)
  | n + 1, s => do
    let (resp, s1) ← httpGet (HReq.abstractReq scopus_id) s
    if resp.status == 429 then fetch_abstract scopus_id n (cycle_api_key s1)
    else
      match resp.body with
      | none => fetch_abstract scopus_id n (cycle_api_key s1)
      | some json_data =>
        if !json_data.truthy then fetch_abstract scopus_id n (cycle_api_key s1)
        else do
          let hk ← jHasKeyStr json_data "abstracts-retrieval-response"
          if !hk then fetch_abstract scopus_id n (cycle_api_key s1)
          else
            match json_data with
            | .obj fields =>
              match dictGet? fields "abstracts-retrieval-response" with
              | none => none
              | some data => do
                let core ← jGetD data "coredata" (JVal.obj [])
                let desc ← jGetD core "dc:description" (JVal.str "N/A")
                some (desc, s1)
            | _ => none

/-- One citing-article summary dict built by `fetch_citations` from a
search entry. -/
def buildCitation (entry : JVal) : Option PyDict := do
  match entry with
  | .obj e => do
    let idv := dictGetD e "dc:identifier" (JVal.str "")
    let citing_id ← match idv with
      | .str s => some (pyReplace s "SCOPUS_ID:" "")
      | _ => none
    let citing_aff_country ←
      match dictGetD e "affiliation" (JVal.obj []) with
      | .arr [] => some (JVal.str "N/A")
      | .arr (a :: _) => jGetD a "affiliation-country" (JVal.str "N/A")
      | .obj f => some (dictGetD f "affiliation-country" (JVal.str "N/A"))
      | _ => some (JVal.str "N/A")
    some [("Citing_Article_Scopus_ID", JVal.str citing_id),
          ("Citing_Article_URL", dictGetD e "prism:url" (JVal.str "N/A")),
          ("Cited_Date", dictGetD e "prism:coverDate" (JVal.str "N/A")),
          ("Citing_Citation_Count", dictGetD e "citedby-count" (JVal.str "N/A")),
          ("Citing_Affiliation_Country", citing_aff_country)]
  | _ => none

/-- `fetch_citations(scopus_id, count=200, retries=3)`: same retry
discipline on the `REF(scopus_id)` search; exhausting the attempts
returns a dict with an empty citations list.  (A non-list `entry`
value is not modelled: Python would iterate a string's characters and
raise on the first `entry.get`.) -/
def fetch_citations (scopus_id : String) : ℕ → Sess → Option (PyDict × Sess)
  | 0, s => some ([("citations", JVal.arr [])], s)
  | n + 1, s => do
    let (resp, s1) ← httpGet (HReq.searchRef scopus_id) s
    if resp.status == 429 then fetch_citations scopus_id n (cycle_api_key s1)
    else
      match resp.body with
      | none => fetch_citations scopus_id n (cycle_api_key s1)
      | some json_data =>
        if !json_data.truthy then fetch_citations scopus_id n (cycle_api_key s1)
        else do
          let hk ← jHasKeyStr json_data "search-results"
          if !hk then fetch_citations scopus_id n (cycle_api_key s1)
          else do
            let sr ← jGetD json_data "search-results" (JVal.obj [])
            let entriesV ← jGetD sr "entry" (JVal.arr [])
            match entriesV with
            | .arr es => do
              let cits ← es.mapM buildCitation
              some ([("citations", JVal.arr (cits.map JVal.obj))], s1)
            | _ => none

/-- State of the main script's per-month loop (`0_compsci.py` lines
249-311). -/
structure MainState where
  sess : Sess
  monthly_articles : List PyDict
  total_processed : ℤ
  current_offset : ℤ
  writes : List (String × List PyDict)
deriving DecidableEq

/-- The main loop's body for one search entry (`0_compsci.py` lines
286-302): extract the Scopus id, fetch metadata (skip the entry when it
comes back `None`), fetch the abstract, fetch citations only when
`Cited_By_Count > 0`, then append with periodic checkpointing. -/
def processEntry (month : String) (entry : JVal) (st : MainState) : Option MainState := do
  match entry with
  | .obj e => do
    let scopus_id ←
      match dictGetD e "dc:identifier" (JVal.str "") with
      | .str s => some (pyReplace s "SCOPUS_ID:" "")
      | _ => none
    let (md?, s1) ← fetch_metadata scopus_id 3 st.sess
    match md? with
    | none => some { st with sess := s1 }
    | some metadata0 => do
      let (absv, s2) ← fetch_abstract scopus_id 3 s1
      let metadata1 := dictSet metadata0 "Abstract" absv
      let cbc ← dictGet? metadata1 "Cited_By_Count"
      let gt0 ←
        match cbc with
        | .num q => some (decide (0 < q))
        | _ => none
      let (metadata2, s3) ←
        if gt0 then do
          let (cd, s3) ← fetch_citations scopus_id 3 s2
          let cv ← dictGet? cd "citations"
          some (dictSet metadata1 "Citations" cv, s3)
        else some (dictSet metadata1 "Citations" (JVal.arr []), s2)
      let (acc, emit) := appendArticle month metadata2 ⟨st.monthly_articles, st.total_processed⟩
      some { st with sess := s3
                     monthly_articles := acc.monthly_articles
                     total_processed := acc.total_processed
                     writes := st.writes ++ emit.toList }
  | _ => none

/-- The main loop's `for entry in entries` over a result page. -/
def processEntriesMain (month : String) : List JVal → MainState → Option MainState
  | [], st => some st
  | e :: es, st => do
    let st' ← processEntry month e st
    processEntriesMain month es st'

/-- The main pagination loop (`0_compsci.py` lines 273-304):
`while current_offset < 5000`, one page request per iteration; any
non-200 status (429 included) breaks out of the loop; an empty entry
list breaks; otherwise every entry is processed and the offset
advances by `COUNT = 200`.  The fuel only bounds the model's recursion
(25 iterations reach the offset bound from 0); `none` also models an
uncaught exception.  A non-200 error print interpolates
`response.json()`, so an unparsable body on a non-200 raises. -/
def mainLoop (query month : String) : ℕ → MainState → Option MainState
  | 0, _ => none
  | fuel + 1, st =>
    if st.current_offset < 5000 then do
      let (resp, s1) ← httpGet (HReq.search query st.current_offset) st.sess
      if resp.status != 200 then
        match resp.body with
        | none => none
        | some _ => some { st with sess := s1 }
      else
        match resp.body with
        | none => none
        | some data => do
          let sr ← jGetD data "search-results" (JVal.obj [])
          let entriesV ← jGetD sr "entry" (JVal.arr [])
          if !entriesV.truthy then some { st with sess := s1 }
          else
            match entriesV with
            | .arr es => do
              let st2 ← processEntriesMain month es { st with sess := s1 }
              mainLoop query month fuel { st2 with current_offset := st2.current_offset + 200 }
            | _ => none
    else some st

/-- Outcome of one month iteration of the main script. -/
inductive BucketOutcome where
  | skipped
  | completed (finalData : List PyDict)
deriving DecidableEq

/-- One month (bucket) iteration of the main script (`0_compsci.py`
lines 249-311): if the final output file already exists the month is
skipped outright (before any resume or request); otherwise resume from
the latest checkpoint, run the pagination loop starting there, and
finally write the full accumulated list to the final output file.
Returns the outcome, the final session, and the file writes performed,
in order. -/
def mainBucket (output_exists : Bool) (dirFiles : List String)
    (fs : String → Option (List PyDict)) (query month : String) (fuel : ℕ) (sess : Sess) :
    Option (BucketOutcome × Sess × List (String × List PyDict)) :=
  if output_exists then some (BucketOutcome.skipped, sess, [])
  else do
    let (start_offset, monthly_articles) ← resume_backup dirFiles fs month
    let stF ← mainLoop query month fuel
      ⟨sess, monthly_articles, start_offset, start_offset, []⟩
    some (BucketOutcome.completed stF.monthly_articles, stF.sess,
          stF.writes ++ [(finalOutputName month, stF.monthly_articles)])

/-- State of the patch script's per-month loop (`0_compsci_patch.py`
lines 248-342). -/
structure PatchState where
  sess : Sess
  articles : List PyDict
  start : ℤ
  writes : List (String × List PyDict)
deriving DecidableEq

/-- The backup write the patch does when it has any articles
(`if articles: backup_data(articles, f"{month}_{len(articles)}_...")`). -/
def patchBackupIfAny (month : String) (st : PatchState) : List (String × List PyDict) :=
  if st.articles.isEmpty then []
  else [(checkpointName month (st.articles.length : ℤ), st.articles)]

/-- The patch loop's body for one search entry (`0_compsci_patch.py`
lines 313-329): skip an empty id, fetch metadata only (skip the entry
when it comes back `None`), append, and checkpoint every
`BACKUP_INTERVAL` articles (named by the current list length). -/
def patchProcessEntry (month : String) (entry : JVal) (st : PatchState) : Option PatchState := do
  match entry with
  | .obj e => do
    let scopus_id ←
      match dictGetD e "dc:identifier" (JVal.str "") with
      | .str s => some (pyReplace s "SCOPUS_ID:" "")
      | _ => none
    if scopus_id == "" then some st
    else do
      let (md?, s1) ← fetch_metadata scopus_id 3 st.sess
      match md? with
      | none => some { st with sess := s1 }
      | some metadata =>
        let articles := st.articles ++ [metadata]
        let emit :=
          if (articles.length : ℤ) % BACKUP_INTERVAL == 0
          then [(checkpointName month (articles.length : ℤ), articles)]
          else []
        some { st with sess := s1, articles := articles, writes := st.writes ++ emit }
  | _ => none

/-- The patch loop's `for entry in entries` over a result page. -/
def patchProcessEntries (month : String) : List JVal → PatchState → Option PatchState
  | [], st => some st
  | e :: es, st => do
    let st' ← patchProcessEntry month e st
    patchProcessEntries month es st'

/-- The patch pagination loop (`0_compsci_patch.py` lines 273-335):
`while True`; a 429 page response cycles the key and retries the same
`start`; an unparsable body cycles and retries; a body without
`search-results` saves a backup of anything collected, cycles and
breaks; an empty entry list saves a backup of anything collected and
breaks; otherwise every entry is processed and `start` advances by
`COUNT = 200`. -/
def patchLoop (query month : String) : ℕ → PatchState → Option PatchState
  | 0, _ => none
  | fuel + 1, st => do
    let (resp, s1) ← httpGet (HReq.search query st.start) st.sess
    if resp.status == 429 then patchLoop query month fuel { st with sess := cycle_api_key s1 }
    else
      match resp.body with
      | none => patchLoop query month fuel { st with sess := cycle_api_key s1 }
      | some json_data => do
        let bad ←
          if !json_data.truthy then some true
          else do
            let hk ← jHasKeyStr json_data "search-results"
            some (!hk)
        if bad then
          some { st with sess := cycle_api_key s1,
                         writes := st.writes ++ patchBackupIfAny month st }
        else do
          let sr ← jGetD json_data "search-results" (JVal.obj [])
          let entriesV ← jGetD sr "entry" (JVal.arr [])
          if !entriesV.truthy then
            some { st with sess := s1, writes := st.writes ++ patchBackupIfAny month st }
          else
            match entriesV with
            | .arr es => do
              let st2 ← patchProcessEntries month es { st with sess := s1 }
              patchLoop query month fuel { st2 with start := st2.start + 200 }
            | _ => none

/-- One month iteration of the patch script (`0_compsci_patch.py` lines
250-342): resume from the latest checkpoint (there is no check of the
final output file), run the `while True` loop, then save a final
backup if any articles were accumulated.  There is no final
`MONTH_comp_23_25.json` write in the patch. -/
def patchBucket (dirFiles : List String) (fs : String → Option (List PyDict))
    (query month : String) (fuel : ℕ) (sess : Sess) :
    Option (Sess × List (String × List PyDict)) := do
  let (start_offset, articles) ← resume_backup dirFiles fs month
  let stF ← patchLoop query month fuel ⟨sess, articles, start_offset, []⟩
  some (stF.sess, stF.writes ++ patchBackupIfAny month stF)

instance : DecidableEq (Sess × List (String × List PyDict)) := instDecidableEqProd

instance : DecidableEq (BucketOutcome × Sess × List (String × List PyDict)) := instDecidableEqProd

/-! ### Claims -/

/-- C2: for every record in the streamed input array, a record already
carrying a non-null `Binoculars_Score` is never passed to the scorer; a
record whose `Abstract` is missing, empty, or the sentinel `"N/A"` is
never passed to the scorer; and a record is scored only if it passes
both checks: no non-null score, and an `Abstract` that is neither
missing, empty, nor `"N/A"`. -/
theorem C2_skip_rule (article : PyDict) :
    (hasNonNullScore article = true → scorerInput? article = none) ∧
    ((dictGet? article "Abstract" = none ∨
      dictGet? article "Abstract" = some (JVal.str "") ∨
      dictGet? article "Abstract" = some (JVal.str "N/A")) →
      scorerInput? article = none) ∧
    (∀ (scorer : JVal → Option ℚ) (it : ProcessedItem),
      processArticle scorer article = some it →
      hasNonNullScore article = false ∧
      dictGet? article "Abstract" ≠ none ∧
      dictGet? article "Abstract" ≠ some (JVal.str "") ∧
      dictGet? article "Abstract" ≠ some (JVal.str "N/A")) := by
  refine ⟨fun h => by simp [scorerInput?, h], fun h => ?_, fun scorer it h => ?_⟩
  · unfold scorerInput?
    by_cases hs : hasNonNullScore article
    · simp [hs]
    · rcases h with h | h | h <;>
        simp [hs, dictGetD, h, JVal.truthy]
  · unfold processArticle at h
    cases hin : scorerInput? article with
    | none => simp [hin] at h
    | some abstract =>
      unfold scorerInput? at hin
      by_cases hs : hasNonNullScore article
      · simp [hs] at hin
      · simp only [hs, Bool.false_eq_true, if_neg] at hin
        refine ⟨by simpa using hs, ?_, ?_, ?_⟩
        · intro hA
          simp [dictGetD, hA, JVal.truthy] at hin
        · intro hA
          simp [dictGetD, hA, JVal.truthy] at hin
        · intro hA
          simp [dictGetD, hA, JVal.truthy] at hin

/-- Witness for C2 at concrete records: a record with a non-null score
is not sent to the scorer; a record with abstract `"N/A"` is not sent;
and a scored record passes both checks. -/
theorem C2_skip_rule_witness :
    scorerInput? [("Binoculars_Score", JVal.num 1), ("Abstract", JVal.str "text")] = none ∧
    scorerInput? [("Scopus_ID", JVal.str "A"), ("Abstract", JVal.str "N/A")] = none ∧
    (hasNonNullScore [("Abstract", JVal.str "text")] = false ∧
     dictGet? [("Abstract", JVal.str "text")] "Abstract" ≠ none ∧
     dictGet? [("Abstract", JVal.str "text")] "Abstract" ≠ some (JVal.str "") ∧
     dictGet? [("Abstract", JVal.str "text")] "Abstract" ≠ some (JVal.str "N/A")) :=
  ⟨(C2_skip_rule _).1 (by decide),
   (C2_skip_rule _).2.1 (Or.inr (Or.inr (by decide))),
   (C2_skip_rule [("Abstract", JVal.str "text")]).2.2 (fun _ => some 1)
     ⟨JVal.str "", 1, accuracy_prediction 1, fpr_prediction 1⟩ (by decide)⟩

/-- C3: each of the two binary predictions is a function of the score
alone (the stored predictions are exactly `accuracy_prediction` and
`fpr_prediction` of the stored score); a score at or above a threshold
yields class 0 and a score below yields class 1, so predictions differ
across the threshold and are constant on each side, for each of the
two thresholds independently. -/
theorem C3_threshold_classification :
    (∀ (scorer : JVal → Option ℚ) (article : PyDict) (it : ProcessedItem),
      processArticle scorer article = some it →
      it.accuracyPred = accuracy_prediction it.score ∧
      it.fprPred = fpr_prediction it.score) ∧
    (∀ s1 s2 : ℚ, s1 < BINOCULARS_ACCURACY_THRESHOLD → BINOCULARS_ACCURACY_THRESHOLD ≤ s2 →
      accuracy_prediction s1 ≠ accuracy_prediction s2) ∧
    (∀ s1 s2 : ℚ, BINOCULARS_ACCURACY_THRESHOLD ≤ s1 → BINOCULARS_ACCURACY_THRESHOLD ≤ s2 →
      accuracy_prediction s1 = accuracy_prediction s2) ∧
    (∀ s1 s2 : ℚ, s1 < BINOCULARS_ACCURACY_THRESHOLD → s2 < BINOCULARS_ACCURACY_THRESHOLD →
      accuracy_prediction s1 = accuracy_prediction s2) ∧
    (∀ s1 s2 : ℚ, s1 < BINOCULARS_FPR_THRESHOLD → BINOCULARS_FPR_THRESHOLD ≤ s2 →
      fpr_prediction s1 ≠ fpr_prediction s2) ∧
    (∀ s1 s2 : ℚ, BINOCULARS_FPR_THRESHOLD ≤ s1 → BINOCULARS_FPR_THRESHOLD ≤ s2 →
      fpr_prediction s1 = fpr_prediction s2) ∧
    (∀ s1 s2 : ℚ, s1 < BINOCULARS_FPR_THRESHOLD → s2 < BINOCULARS_FPR_THRESHOLD →
      fpr_prediction s1 = fpr_prediction s2) := by
  refine ⟨fun scorer article it h => ?_, ?_, ?_, ?_, ?_, ?_, ?_⟩
  · unfold processArticle at h
    cases hin : scorerInput? article with
    | none => simp [hin] at h
    | some abstract =>
      simp only [hin] at h
      cases hsc : scorer abstract with
      | none => simp [hsc] at h
      | some score =>
        simp only [hsc] at h
        cases h
        exact ⟨rfl, rfl⟩
  · intro s1 s2 h1 h2
    simp [accuracy_prediction, ge_iff_le, h2, not_le.mpr h1]
  · intro s1 s2 h1 h2
    simp [accuracy_prediction, ge_iff_le, h1, h2]
  · intro s1 s2 h1 h2
    simp [accuracy_prediction, ge_iff_le, not_le.mpr h1, not_le.mpr h2]
  · intro s1 s2 h1 h2
    simp [fpr_prediction, ge_iff_le, h2, not_le.mpr h1]
  · intro s1 s2 h1 h2
    simp [fpr_prediction, ge_iff_le, h1, h2]
  · intro s1 s2 h1 h2
    simp [fpr_prediction, ge_iff_le, not_le.mpr h1, not_le.mpr h2]

/-- Witness for C3 at concrete scores (0 below both thresholds, 1 and 2
at or above both). -/
theorem C3_threshold_classification_witness :
    (accuracy_prediction 1 = accuracy_prediction 1 ∧
     fpr_prediction 1 = fpr_prediction 1) ∧
    accuracy_prediction 0 ≠ accuracy_prediction 1 ∧
    accuracy_prediction 1 = accuracy_prediction 2 ∧
    accuracy_prediction 0 = accuracy_prediction 0 ∧
    fpr_prediction 0 ≠ fpr_prediction 1 ∧
    fpr_prediction 1 = fpr_prediction 2 ∧
    fpr_prediction 0 = fpr_prediction 0 :=
  ⟨by
    have := C3_threshold_classification.1 (fun _ => some 1) [("Abstract", JVal.str "t")]
      ⟨JVal.str "", 1, accuracy_prediction 1, fpr_prediction 1⟩ (by decide)
    exact ⟨this.1, this.2⟩,
   C3_threshold_classification.2.1 0 1 (by decide) (by decide),
   C3_threshold_classification.2.2.1 1 2 (by decide) (by decide),
   C3_threshold_classification.2.2.2.1 0 0 (by decide) (by decide),
   C3_threshold_classification.2.2.2.2.1 0 1 (by decide) (by decide),
   C3_threshold_classification.2.2.2.2.2.1 1 2 (by decide) (by decide),
   C3_threshold_classification.2.2.2.2.2.2 0 0 (by decide) (by decide)⟩

/-- C4: if the streaming pass computes no new annotations (in
particular when every record already carries a non-null score), the
operation returns failure and performs no filesystem effect: no
directory creation and no write. -/
theorem C4_noop_write_guard (output_file : FPath) (doc : List PyDict)
    (scorer : JVal → Option ℚ) :
    (processItems scorer doc = [] →
      process_file_streaming output_file doc scorer = (RunResult.noNewItems, [])) ∧
    ((∀ a ∈ doc, hasNonNullScore a = true) →
      process_file_streaming output_file doc scorer = (RunResult.noNewItems, [])) := by
  constructor
  · intro h
    simp [process_file_streaming, h]
  · intro h
    have hnil : processItems scorer doc = [] := by
      unfold processItems
      rw [List.filterMap_eq_nil_iff]
      intro a ha
      have := h a ha
      simp [processArticle, scorerInput?, this]
    simp [process_file_streaming, hnil]

/-- Witness for C4 on a fully scored two-record document. -/
theorem C4_noop_write_guard_witness :
    process_file_streaming ⟨"data/comp-proc", "f", ".json"⟩
      [[("Scopus_ID", JVal.str "A"), ("Binoculars_Score", JVal.num 1),
        ("Abstract", JVal.str "text")],
       [("Scopus_ID", JVal.str "B"), ("Binoculars_Score", JVal.num 2),
        ("Abstract", JVal.str "more")]]
      (fun _ => some 1) = (RunResult.noNewItems, []) :=
  (C4_noop_write_guard _ _ _).2 (by decide)

theorem setScores_fields (a : PyDict) (it : ProcessedItem) :
    dictGet? (setScores a it) "Binoculars_Score" = some (JVal.num it.score) ∧
    dictGet? (setScores a it) "Accuracy_Prediction" = some (JVal.num it.accuracyPred) ∧
    dictGet? (setScores a it) "FPR_Prediction" = some (JVal.num it.fprPred) ∧
    ∀ k, k ≠ "Binoculars_Score" → k ≠ "Accuracy_Prediction" → k ≠ "FPR_Prediction" →
      dictGet? (setScores a it) k = dictGet? a k := by
  unfold setScores
  refine ⟨?_, ?_, ?_, ?_⟩
  · rw [dictGet?_dictSet_other _ _ _ _ (by decide), dictGet?_dictSet_other _ _ _ _ (by decide),
      dictGet?_dictSet_same]
  · rw [dictGet?_dictSet_other _ _ _ _ (by decide), dictGet?_dictSet_same]
  · rw [dictGet?_dictSet_same]
  · intro k h1 h2 h3
    rw [dictGet?_dictSet_other _ _ _ _ h3, dictGet?_dictSet_other _ _ _ _ h2,
      dictGet?_dictSet_other _ _ _ _ h1]

theorem mergeArticle_lookup_none (items : List ProcessedItem) (a : PyDict)
    (h : scoresDictLookup items (dictGetD a "Scopus_ID" JVal.null) = none) :
    mergeArticle items a = some a := by
  unfold mergeArticle
  simp [h]

theorem mergeArticle_lookup_some (items : List ProcessedItem) (a : PyDict) (it : ProcessedItem)
    (h : scoresDictLookup items (dictGetD a "Scopus_ID" JVal.null) = some it) :
    mergeArticle items a = none ∨ mergeArticle items a = some (setScores a it) := by
  unfold mergeArticle
  simp only [h, Option.isSome_some, if_pos]
  cases hv : dictGet? a "Scopus_ID" with
  | none => exact Or.inl rfl
  | some v =>
    refine Or.inr ?_
    have hgd : dictGetD a "Scopus_ID" JVal.null = v := by simp [dictGetD, hv]
    rw [hgd] at h
    simp [h]

theorem mergeAll_get? (items : List ProcessedItem) :
    ∀ (l out : List PyDict), mergeAll items l = some out →
      out.length = l.length ∧
      ∀ i : ℕ, (l.get? i).bind (mergeArticle items) = out.get? i := by
  intro l
  induction l with
  | nil =>
    intro out h
    cases h
    exact ⟨rfl, fun i => by cases i <;> simp⟩
  | cons a rest ih =>
    intro out h
    unfold mergeAll at h
    cases hA : mergeArticle items a with
    | none => simp [hA] at h
    | some a' =>
      simp only [hA] at h
      cases hR : mergeAll items rest with
      | none => simp [hR] at h
      | some rest' =>
        simp only [hR] at h
        cases h
        obtain ⟨hlen, hget⟩ := ih rest' hR
        refine ⟨by simp [hlen], fun i => ?_⟩
        cases i with
        | zero => simpa using hA
        | succ n => simpa using hget n

/-- C1: whenever the annotator reports a successful write, the written
document has one record per input record; a record whose merge key
(the `Scopus_ID` value, None when absent) is found in the lookup of
newly computed annotations carries exactly the computed score and both
computed predictions, with every other field unchanged; a record whose
key is absent from the lookup is identical to the input record. -/
theorem C1_merge_correctness (output_file : FPath) (doc : List PyDict)
    (scorer : JVal → Option ℚ) (out : List PyDict)
    (h : (process_file_streaming output_file doc scorer).1 = RunResult.wrote out) :
    out.length = doc.length ∧
    ∀ (i : ℕ) (a : PyDict), doc.get? i = some a →
      (scoresDictLookup (processItems scorer doc) (dictGetD a "Scopus_ID" JVal.null) = none →
        out.get? i = some a) ∧
      ∀ it : ProcessedItem,
        scoresDictLookup (processItems scorer doc) (dictGetD a "Scopus_ID" JVal.null) = some it →
        ∃ a' : PyDict, out.get? i = some a' ∧
          dictGet? a' "Binoculars_Score" = some (JVal.num it.score) ∧
          dictGet? a' "Accuracy_Prediction" = some (JVal.num it.accuracyPred) ∧
          dictGet? a' "FPR_Prediction" = some (JVal.num it.fprPred) ∧
          ∀ k, k ≠ "Binoculars_Score" → k ≠ "Accuracy_Prediction" → k ≠ "FPR_Prediction" →
            dictGet? a' k = dictGet? a k := by
  have hm : mergeAll (processItems scorer doc) doc = some out := by
    unfold process_file_streaming at h
    by_cases he : (processItems scorer doc).isEmpty
    · simp [he] at h
    · simp only [he, Bool.false_eq_true, if_neg] at h
      cases hM : mergeAll (processItems scorer doc) doc with
      | none => simp [hM] at h
      | some data =>
        simp only [hM] at h
        cases h
        rfl
  obtain ⟨hlen, hget⟩ := mergeAll_get? _ _ _ hm
  refine ⟨hlen, fun i a ha => ?_⟩
  have hbind : mergeArticle (processItems scorer doc) a = out.get? i := by
    have hb := hget i
    rw [ha] at hb
    exact hb
  constructor
  · intro hnone
    rw [← hbind]
    simp [mergeArticle_lookup_none _ _ hnone]
  · intro it hsome
    rcases mergeArticle_lookup_some _ a it hsome with hcrash | hok
    · exfalso
      rw [hcrash] at hbind
      obtain ⟨hlt, -⟩ := List.get?_eq_some.mp ha
      have hnone : out.get? i = none := hbind.symm
      have := List.get?_eq_none.mp hnone
      omega
    · refine ⟨setScores a it, ?_, (setScores_fields a it).1, (setScores_fields a it).2.1,
        (setScores_fields a it).2.2.1, (setScores_fields a it).2.2.2⟩
      rw [← hbind, hok]

theorem scoresDictLookup_eq_reverse_find (items : List ProcessedItem) (k : JVal) :
    scoresDictLookup items k = items.reverse.find? (fun it => it.scopus_id == k) := by
  induction items using List.reverseRecOn with
  | nil => rfl
  | append_singleton xs x ih =>
    unfold scoresDictLookup at *
    rw [List.foldl_append, List.reverse_append, List.reverse_singleton, List.singleton_append]
    simp only [List.foldl_cons, List.foldl_nil]
    by_cases hx : (x.scopus_id == k) = true
    · rw [if_pos hx]
      exact (List.find?_cons_of_pos (p := fun it => it.scopus_id == k) (a := x) xs.reverse
        (show (fun it => it.scopus_id == k) x = true from hx)).symm
    · rw [if_neg hx]
      exact ih.trans (List.find?_cons_of_neg (p := fun it => it.scopus_id == k) (a := x)
        xs.reverse (show ¬(fun it => it.scopus_id == k) x = true from hx)).symm

theorem scoresDictLookup_spec (items : List ProcessedItem) (k : JVal) (it : ProcessedItem)
    (h : scoresDictLookup items k = some it) : it ∈ items ∧ it.scopus_id = k := by
  rw [scoresDictLookup_eq_reverse_find] at h
  refine ⟨List.mem_reverse.mp (List.mem_of_find?_eq_some h), ?_⟩
  have := List.find?_some h
  simpa using this

/-- Input document for the C1 witness: one unscored record and one
already-scored record. -/
def c1Doc : List PyDict :=
  [[("Scopus_ID", JVal.str "A"), ("Abstract", JVal.str "text")],
   [("Scopus_ID", JVal.str "B"), ("Binoculars_Score", JVal.num 2), ("Abstract", JVal.str "x")]]

/-- Scorer for the C1 witness. -/
def c1Scorer : JVal → Option ℚ := fun _ => some 1

/-- Output document of the C1 witness run. -/
def c1Out : List PyDict :=
  [[("Scopus_ID", JVal.str "A"), ("Abstract", JVal.str "text"),
    ("Binoculars_Score", JVal.num 1), ("Accuracy_Prediction", JVal.num 0),
    ("FPR_Prediction", JVal.num 0)],
   [("Scopus_ID", JVal.str "B"), ("Binoculars_Score", JVal.num 2), ("Abstract", JVal.str "x")]]

/-- Witness for C1 on a concrete two-record run: the output has the
input's length and the already-scored record is returned unchanged. -/
theorem C1_merge_correctness_witness :
    c1Out.length = c1Doc.length ∧
    c1Out.get? 1 =
      some [("Scopus_ID", JVal.str "B"), ("Binoculars_Score", JVal.num 2),
            ("Abstract", JVal.str "x")] := by
  have h : (process_file_streaming ⟨"data/comp-proc", "f", ".json"⟩ c1Doc c1Scorer).1 =
      RunResult.wrote c1Out := by decide
  have H := C1_merge_correctness ⟨"data/comp-proc", "f", ".json"⟩ c1Doc c1Scorer c1Out h
  exact ⟨H.1,
    (H.2 1 [("Scopus_ID", JVal.str "B"), ("Binoculars_Score", JVal.num 2),
            ("Abstract", JVal.str "x")] (by decide)).1 (by decide)⟩

/-- C10: (i) the merge lookup keeps, for each identifier, the item of
the last processed record with that identifier (a dict comprehension
lets later items override earlier ones); (ii) a newly scored record
whose `Scopus_ID` field is absent is stored under the empty-string
identifier; (iii) a looked-up item's annotations are written onto
every record of the full document whose `Scopus_ID` field holds that
identifier; (iv) a record lacking the `Scopus_ID` field entirely is
never annotated (it is left unchanged, or the merge raises when the
lookup holds the key None); (v) when every computed item carries the
empty-string identifier, a record changed by the merge must have its
`Scopus_ID` field equal to the empty string. -/
theorem C10_merge_identifier_semantics :
    (∀ (items : List ProcessedItem) (k : JVal),
      scoresDictLookup items k = items.reverse.find? (fun it => it.scopus_id == k)) ∧
    (∀ (scorer : JVal → Option ℚ) (a : PyDict) (it : ProcessedItem),
      dictGet? a "Scopus_ID" = none → processArticle scorer a = some it →
      it.scopus_id = JVal.str "") ∧
    (∀ (items : List ProcessedItem) (doc out : List PyDict),
      mergeAll items doc = some out →
      ∀ (i : ℕ) (a : PyDict) (v : JVal) (it : ProcessedItem),
        doc.get? i = some a → dictGet? a "Scopus_ID" = some v →
        scoresDictLookup items v = some it →
        out.get? i = some (setScores a it)) ∧
    (∀ (items : List ProcessedItem) (b : PyDict),
      dictGet? b "Scopus_ID" = none →
      mergeArticle items b = some b ∨ mergeArticle items b = none) ∧
    (∀ (items : List ProcessedItem) (b out : PyDict),
      (∀ j ∈ items, j.scopus_id = JVal.str "") →
      mergeArticle items b = some out → out ≠ b →
      dictGet? b "Scopus_ID" = some (JVal.str "")) := by
  refine ⟨scoresDictLookup_eq_reverse_find, ?_, ?_, ?_, ?_⟩
  · intro scorer a it hnone h
    unfold processArticle at h
    cases hin : scorerInput? a with
    | none => simp [hin] at h
    | some abstract =>
      simp only [hin] at h
      cases hsc : scorer abstract with
      | none => simp [hsc] at h
      | some score =>
        simp only [hsc] at h
        cases h
        simp [dictGetD, hnone]
  · intro items doc out hm i a v it ha hv hlk
    obtain ⟨-, hget⟩ := mergeAll_get? items doc out hm
    have hbind : mergeArticle items a = out.get? i := by
      have hb := hget i
      rw [ha] at hb
      exact hb
    rw [← hbind]
    have hgd : dictGetD a "Scopus_ID" JVal.null = v := by simp [dictGetD, hv]
    simp [mergeArticle, hgd, hv, hlk]
  · intro items b hnone
    unfold mergeArticle
    by_cases hl : (scoresDictLookup items (dictGetD b "Scopus_ID" JVal.null)).isSome
    · simp [hl, hnone]
    · simp [hl]
  · intro items b out hall hm hne
    unfold mergeArticle at hm
    by_cases hl : (scoresDictLookup items (dictGetD b "Scopus_ID" JVal.null)).isSome
    · simp only [hl, if_pos] at hm
      cases hv : dictGet? b "Scopus_ID" with
      | none => simp [hv] at hm
      | some v =>
        simp only [hv] at hm
        cases hlk : scoresDictLookup items v with
        | none => simp [hlk] at hm
        | some it =>
          obtain ⟨hmem, hkey⟩ := scoresDictLookup_spec items v it hlk
          exact congrArg some (hkey.symm.trans (hall it hmem))
    · simp only [hl, Bool.false_eq_true, if_neg] at hm
      cases hm
      exact absurd rfl hne

/-- Witness for C10 at concrete inputs: a record without `Scopus_ID`
yields an item keyed by the empty string; a matching record receives
the item's fields; a record lacking the field is left unchanged by a
merge against a string-keyed item; and a record changed by a merge
against empty-string-keyed items has the empty-string identifier. -/
theorem C10_merge_identifier_semantics_witness :
    ((⟨JVal.str "", 1, accuracy_prediction 1, fpr_prediction 1⟩ : ProcessedItem).scopus_id =
      JVal.str "") ∧
    [setScores [("Scopus_ID", JVal.str "A")] ⟨JVal.str "A", 1, 0, 0⟩].get? 0 =
      some (setScores [("Scopus_ID", JVal.str "A")] ⟨JVal.str "A", 1, 0, 0⟩) ∧
    (mergeArticle [⟨JVal.str "A", 1, 0, 0⟩] [("Title", JVal.str "x")] =
       some [("Title", JVal.str "x")] ∨
     mergeArticle [⟨JVal.str "A", 1, 0, 0⟩] [("Title", JVal.str "x")] = none) ∧
    dictGet? [("Scopus_ID", JVal.str ""), ("Abstract", JVal.str "t")] "Scopus_ID" =
      some (JVal.str "") :=
  ⟨C10_merge_identifier_semantics.2.1 (fun _ => some 1) [("Abstract", JVal.str "t")]
     ⟨JVal.str "", 1, accuracy_prediction 1, fpr_prediction 1⟩ (by decide) (by decide),
   C10_merge_identifier_semantics.2.2.1 [⟨JVal.str "A", 1, 0, 0⟩]
     [[("Scopus_ID", JVal.str "A")]]
     [setScores [("Scopus_ID", JVal.str "A")] ⟨JVal.str "A", 1, 0, 0⟩] (by decide)
     0 [("Scopus_ID", JVal.str "A")] (JVal.str "A") ⟨JVal.str "A", 1, 0, 0⟩
     (by decide) (by decide) (by decide),
   C10_merge_identifier_semantics.2.2.2.1 [⟨JVal.str "A", 1, 0, 0⟩]
     [("Title", JVal.str "x")] (by decide),
   C10_merge_identifier_semantics.2.2.2.2 [⟨JVal.str "", 1, 0, 0⟩]
     [("Scopus_ID", JVal.str ""), ("Abstract", JVal.str "t")]
     (setScores [("Scopus_ID", JVal.str ""), ("Abstract", JVal.str "t")] ⟨JVal.str "", 1, 0, 0⟩)
     (by decide) (by decide) (by decide)⟩

theorem append_patched_ne (s : String) : s ++ "_patched" ≠ s := by
  intro h
  have hlen := congrArg String.length h
  rw [String.length_append] at hlen
  have h8 : "_patched".length = 8 := rfl
  omega

theorem patchedPath_ne_input (input_file : FPath) : patchedPath input_file ≠ input_file := by
  intro h
  exact append_patched_ne input_file.stem (congrArg FPath.stem h)

/-- C9 counterexample: run the patch annotator on a one-record document
with the destination under `data/comp-proc/post/2023`; the only write
goes to `./MAY_comp_2023_patched.json`, not to the given destination
path (and no directory-creation effect occurs). -/
theorem C9_counterexample :
    writtenPaths (process_file_streaming_patch
        ⟨"data/comp/pre", "MAY_comp_2023", ".json"⟩
        ⟨"data/comp-proc/post/2023", "MAY_comp_2023", ".json"⟩
        [[("Scopus_ID", JVal.str "A"), ("Abstract", JVal.str "text")]]
        (fun _ => some 1)).2 =
      [⟨".", "MAY_comp_2023_patched", ".json"⟩] ∧
    (⟨".", "MAY_comp_2023_patched", ".json"⟩ : FPath) ≠
      ⟨"data/comp-proc/post/2023", "MAY_comp_2023", ".json"⟩ := by
  exact ⟨by decide, by decide⟩

/-- C9 amended: the main annotator's effects are only the creation of
the destination's directory and writes of the merged document to the
destination path (on success, exactly those two, in order), so the
input file is never written when it differs from the destination; the
patch variant ignores the given destination and writes only to the
`_patched` file derived from the input name, which never equals the
input file, so the patch never writes the input file either. -/
theorem C9_amended (input_file output_file : FPath) (doc : List PyDict)
    (scorer : JVal → Option ℚ) :
    (∀ e ∈ (process_file_streaming output_file doc scorer).2,
      e = FsEvent.mkdirP output_file.dir ∨ ∃ data, e = FsEvent.write output_file data) ∧
    (∀ data, (process_file_streaming output_file doc scorer).1 = RunResult.wrote data →
      (process_file_streaming output_file doc scorer).2 =
        [FsEvent.mkdirP output_file.dir, FsEvent.write output_file data]) ∧
    (input_file ≠ output_file →
      input_file ∉ writtenPaths (process_file_streaming output_file doc scorer).2) ∧
    (∀ p ∈ writtenPaths (process_file_streaming_patch input_file output_file doc scorer).2,
      p = patchedPath input_file) ∧
    input_file ∉ writtenPaths (process_file_streaming_patch input_file output_file doc scorer).2 := by
  have hmain : (process_file_streaming output_file doc scorer).2 = [] ∨
      ∃ data, (process_file_streaming output_file doc scorer).2 =
        [FsEvent.mkdirP output_file.dir, FsEvent.write output_file data] ∧
        (process_file_streaming output_file doc scorer).1 = RunResult.wrote data := by
    unfold process_file_streaming
    by_cases he : (processItems scorer doc).isEmpty
    · simp [he]
    · cases hM : mergeAll (processItems scorer doc) doc with
      | none => simp [he, hM]
      | some data => simp [he, hM]
  have hpatch : (process_file_streaming_patch input_file output_file doc scorer).2 = [] ∨
      ∃ data, (process_file_streaming_patch input_file output_file doc scorer).2 =
        [FsEvent.write (patchedPath input_file) data] := by
    unfold process_file_streaming_patch
    by_cases he : (processItems scorer doc).isEmpty
    · simp [he]
    · cases hM : mergeAll (processItems scorer doc) doc with
      | none => simp [he, hM]
      | some data => simp [he, hM]
  refine ⟨?_, ?_, ?_, ?_, ?_⟩
  · intro e hmem
    rcases hmain with h | ⟨data, h, -⟩
    · rw [h] at hmem
      cases hmem
    · rw [h] at hmem
      simp only [List.mem_cons, List.not_mem_nil, or_false] at hmem
      rcases hmem with rfl | rfl
      · exact Or.inl rfl
      · exact Or.inr ⟨data, rfl⟩
  · intro data hw
    rcases hmain with h | ⟨data', h, hw'⟩
    · exfalso
      unfold process_file_streaming at hw h
      by_cases he : (processItems scorer doc).isEmpty
      · simp [he] at hw
      · cases hM : mergeAll (processItems scorer doc) doc with
        | none => simp [he, hM] at hw
        | some d => simp [he, hM] at h
    · have : data' = data := by
        rw [hw] at hw'
        cases hw'
        rfl
      rw [h, this]
  · intro hne hmem
    rcases hmain with h | ⟨data, h, -⟩
    · rw [h] at hmem
      cases hmem
    · rw [h] at hmem
      unfold writtenPaths at hmem
      simp at hmem
      exact hne hmem
  · intro p hmem
    rcases hpatch with h | ⟨data, h⟩
    · rw [h] at hmem
      cases hmem
    · rw [h] at hmem
      unfold writtenPaths at hmem
      simp at hmem
      exact hmem
  · intro hmem
    rcases hpatch with h | ⟨data, h⟩
    · rw [h] at hmem
      cases hmem
    · rw [h] at hmem
      unfold writtenPaths at hmem
      simp at hmem
      exact patchedPath_ne_input input_file hmem.symm

/-- Witness for C9 (amended) on a concrete one-record run with distinct
input and destination paths. -/
theorem C9_amended_witness :
    (process_file_streaming ⟨"data/comp-proc", "APRIL_comp_2021", ".json"⟩
        [[("Scopus_ID", JVal.str "A"), ("Abstract", JVal.str "text")]]
        (fun _ => some 1)).2 =
      [FsEvent.mkdirP "data/comp-proc",
       FsEvent.write ⟨"data/comp-proc", "APRIL_comp_2021", ".json"⟩
         [[("Scopus_ID", JVal.str "A"), ("Abstract", JVal.str "text"),
           ("Binoculars_Score", JVal.num 1), ("Accuracy_Prediction", JVal.num 0),
           ("FPR_Prediction", JVal.num 0)]]] ∧
    (⟨"data/comp/pre", "APRIL_comp_2021", ".json"⟩ : FPath) ∉
      writtenPaths (process_file_streaming ⟨"data/comp-proc", "APRIL_comp_2021", ".json"⟩
        [[("Scopus_ID", JVal.str "A"), ("Abstract", JVal.str "text")]]
        (fun _ => some 1)).2 :=
  ⟨(C9_amended ⟨"data/comp/pre", "APRIL_comp_2021", ".json"⟩
      ⟨"data/comp-proc", "APRIL_comp_2021", ".json"⟩
      [[("Scopus_ID", JVal.str "A"), ("Abstract", JVal.str "text")]]
      (fun _ => some 1)).2.1
     [[("Scopus_ID", JVal.str "A"), ("Abstract", JVal.str "text"),
       ("Binoculars_Score", JVal.num 1), ("Accuracy_Prediction", JVal.num 0),
       ("FPR_Prediction", JVal.num 0)]] (by decide),
   (C9_amended ⟨"data/comp/pre", "APRIL_comp_2021", ".json"⟩
      ⟨"data/comp-proc", "APRIL_comp_2021", ".json"⟩
      [[("Scopus_ID", JVal.str "A"), ("Abstract", JVal.str "text")]]
      (fun _ => some 1)).2.2.1 (by decide)⟩

theorem digitChar_spec : ∀ d, d < 10 →
    (digitChar d).isDigit = true ∧ (digitChar d).toNat - 48 = d := by decide

theorem isDigit_ne_special {c : Char} (h : c.isDigit = true) :
    c ≠ '_' ∧ c ≠ '-' ∧ c ≠ '+' := by
  refine ⟨?_, ?_, ?_⟩ <;> (intro he; subst he; revert h; decide)

theorem natCharsAux_spec :
    ∀ (fuel n : ℕ), n < fuel →
      natCharsAux fuel n ≠ [] ∧
      (∀ c ∈ natCharsAux fuel n, c.isDigit = true) ∧
      ∀ a : ℕ, List.foldl digitStep (some a) (natCharsAux fuel n) =
        some (a * 10 ^ (natCharsAux fuel n).length + n) := by
  intro fuel
  induction fuel with
  | zero => intro n h; omega
  | succ f ih =>
    intro n h
    by_cases h10 : n < 10
    · refine ⟨by simp [natCharsAux, h10], ?_, ?_⟩
      · intro c hc
        simp only [natCharsAux, h10, if_pos, List.mem_singleton] at hc
        subst hc
        exact (digitChar_spec n h10).1
      · intro a
        simp only [natCharsAux, h10, if_pos, List.foldl_cons, List.foldl_nil, digitStep,
          List.length_singleton]
        rw [if_pos (digitChar_spec n h10).1, (digitChar_spec n h10).2]
        norm_num
    · have hn0 : 0 < n := by omega
      have hdiv : n / 10 < f := by
        have h1 : n / 10 < n := Nat.div_lt_self hn0 (by omega)
        omega
      obtain ⟨hne, hdig, hfold⟩ := ih (n / 10) hdiv
      have hm10 : n % 10 < 10 := Nat.mod_lt _ (by omega)
      have hstep : natCharsAux (f + 1) n = natCharsAux f (n / 10) ++ [digitChar (n % 10)] := by
        simp [natCharsAux, h10]
      refine ⟨by simp [hstep], ?_, ?_⟩
      · intro c hc
        rw [hstep] at hc
        rcases List.mem_append.mp hc with hc | hc
        · exact hdig c hc
        · rw [List.mem_singleton] at hc
          subst hc
          exact (digitChar_spec _ hm10).1
      · intro a
        have harith : (a * 10 ^ (natCharsAux f (n / 10)).length + n / 10) * 10 + n % 10 =
            a * 10 ^ ((natCharsAux f (n / 10)).length + 1) + n := by
          have hmod := Nat.div_add_mod n 10
          calc (a * 10 ^ (natCharsAux f (n / 10)).length + n / 10) * 10 + n % 10
              = a * (10 ^ (natCharsAux f (n / 10)).length * 10) +
                  (10 * (n / 10) + n % 10) := by ring
            _ = a * 10 ^ ((natCharsAux f (n / 10)).length + 1) + n := by
                rw [hmod, pow_succ]
        rw [hstep, List.foldl_append, hfold a]
        simp only [List.foldl_cons, List.foldl_nil, digitStep, List.length_append,
          List.length_singleton]
        rw [if_pos (digitChar_spec _ hm10).1, (digitChar_spec _ hm10).2]
        rw [harith]

theorem natChars_spec (n : ℕ) :
    natChars n ≠ [] ∧ (∀ c ∈ natChars n, c.isDigit = true) ∧
      digitsVal? (natChars n) = some n := by
  obtain ⟨hne, hdig, hfold⟩ := natCharsAux_spec (n + 1) n (by omega)
  refine ⟨hne, hdig, ?_⟩
  unfold digitsVal? natChars
  rw [if_neg (by simpa [List.isEmpty_iff] using hne)]
  rw [hfold 0]
  norm_num

theorem parsePyInt?_digits (cs : List Char) (hne : cs ≠ [])
    (hdig : ∀ c ∈ cs, c.isDigit = true) :
    parsePyInt? cs = (digitsVal? cs).map (fun n => (n : ℤ)) := by
  cases cs with
  | nil => exact absurd rfl hne
  | cons c rest =>
    obtain ⟨h1, h2, h3⟩ := isDigit_ne_special (hdig c (by simp))
    simp [parsePyInt?, h2, h3]

theorem strOfInt_spec (i : ℤ) :
    (strOfInt i).data ≠ [] ∧ '_' ∉ (strOfInt i).data ∧
      parsePyInt? (strOfInt i).data = some i := by
  by_cases hi : i < 0
  · have hdata : (strOfInt i).data = '-' :: natChars i.natAbs := by
      simp [strOfInt, hi]
    obtain ⟨hne, hdig, hval⟩ := natChars_spec i.natAbs
    refine ⟨by simp [hdata], ?_, ?_⟩
    · rw [hdata]
      intro hmem
      rcases List.mem_cons.mp hmem with h | h
      · exact absurd h.symm (by decide)
      · exact absurd rfl (isDigit_ne_special (hdig _ h)).1
    · rw [hdata]
      have hp : parsePyInt? ('-' :: natChars i.natAbs) =
          (digitsVal? (natChars i.natAbs)).map (fun n => -(n : ℤ)) := by
        simp [parsePyInt?]
      rw [hp, hval]
      have hcast : -((i.natAbs : ℕ) : ℤ) = i := by omega
      show some (-((i.natAbs : ℕ) : ℤ)) = some i
      rw [hcast]
  · have hdata : (strOfInt i).data = natChars i.toNat := by
      simp [strOfInt, hi]
    obtain ⟨hne, hdig, hval⟩ := natChars_spec i.toNat
    refine ⟨by simp [hdata, hne], ?_, ?_⟩
    · rw [hdata]
      intro hmem
      exact absurd rfl (isDigit_ne_special (hdig _ hmem)).1
    · rw [hdata, parsePyInt?_digits _ hne hdig, hval]
      have : ((i.toNat : ℕ) : ℤ) = i := by omega
      simp [this]

theorem chSplit_ne_nil (sep : Char) (xs : List Char) : chSplit sep xs ≠ [] := by
  induction xs with
  | nil => simp [chSplit]
  | cons c cs ih =>
    unfold chSplit
    cases h : chSplit sep cs with
    | nil => exact absurd h ih
    | cons hd tl => by_cases hc : c == sep <;> simp [hc]

theorem chSplit_sepfree (sep : Char) (xs : List Char) (h : sep ∉ xs) :
    chSplit sep xs = [xs] := by
  induction xs with
  | nil => rfl
  | cons c cs ih =>
    have hc : (c == sep) = false := by
      refine beq_eq_false_iff_ne.mpr (fun he => h ?_)
      rw [he]
      exact List.mem_cons_self _ _
    have hcs : sep ∉ cs := fun hm => h (List.mem_cons_of_mem _ hm)
    unfold chSplit
    rw [ih hcs]
    simp [hc]

theorem chSplit_append_sep (sep : Char) (xs ys : List Char) (h : sep ∉ xs) :
    chSplit sep (xs ++ sep :: ys) = xs :: chSplit sep ys := by
  induction xs with
  | nil =>
    simp only [List.nil_append]
    cases hy : chSplit sep ys with
    | nil => exact absurd hy (chSplit_ne_nil sep ys)
    | cons hd tl =>
      simp only [chSplit]
      rw [hy]
      simp
  | cons c cs ih =>
    have hc : (c == sep) = false := by
      refine beq_eq_false_iff_ne.mpr (fun he => h ?_)
      rw [he]
      exact List.mem_cons_self _ _
    have hcs : sep ∉ cs := fun hm => h (List.mem_cons_of_mem _ hm)
    have ih' := ih hcs
    show chSplit sep (c :: (cs ++ sep :: ys)) = (c :: cs) :: chSplit sep ys
    simp only [chSplit]
    rw [ih']
    simp [hc]

theorem prefixCh_append_self (xs ys : List Char) : prefixCh xs (xs ++ ys) = true := by
  induction xs with
  | nil => rfl
  | cons c cs ih => simp [prefixCh, ih]

theorem suffixCh_append_self (xs ys : List Char) : suffixCh ys (xs ++ ys) = true := by
  unfold suffixCh
  rw [List.reverse_append]
  exact prefixCh_append_self _ _

theorem checkpointName_data (month : String) (i : ℤ) :
    (checkpointName month i).data =
      month.data ++ '_' :: ((strOfInt i).data ++ '_' :: "comp_23_25.json".data) := by
  have h1 : ("_" : String).data = ['_'] := rfl
  have h2 : ("_comp_23_25.json" : String).data = '_' :: "comp_23_25.json".data := rfl
  simp [checkpointName, h1, h2]

theorem matchesBackupGlob_checkpointName (month : String) (i : ℤ) :
    matchesBackupGlob month (checkpointName month i) = true := by
  obtain ⟨hne, -, -⟩ := strOfInt_spec i
  unfold matchesBackupGlob
  rw [checkpointName_data]
  simp only [Bool.and_eq_true, decide_eq_true_eq]
  refine ⟨⟨?_, ?_⟩, ?_⟩
  · have : month.data ++ '_' :: ((strOfInt i).data ++ '_' :: "comp_23_25.json".data) =
        (month.data ++ ['_']) ++ ((strOfInt i).data ++ '_' :: "comp_23_25.json".data) := by
      simp
    rw [this]
    exact prefixCh_append_self _ _
  · have h2 : ("_comp_23_25.json" : String).data = '_' :: "comp_23_25.json".data := rfl
    have : month.data ++ '_' :: ((strOfInt i).data ++ '_' :: "comp_23_25.json".data) =
        (month.data ++ '_' :: (strOfInt i).data) ++ "_comp_23_25.json".data := by
      simp [h2]
    rw [this]
    exact suffixCh_append_self _ _
  · simp only [List.length_append, List.length_cons]
    have hlen0 : (strOfInt i).data.length ≠ 0 := by
      intro h0
      exact hne (List.length_eq_zero.mp h0)
    omega

theorem parse_checkpoint_idx (month : String) (hm : '_' ∉ month.data) (i : ℤ) :
    ((chSplit '_' (checkpointName month i).data).get? 1).bind parsePyInt? = some i := by
  obtain ⟨-, hnound, hparse⟩ := strOfInt_spec i
  rw [checkpointName_data, chSplit_append_sep _ _ _ hm, chSplit_append_sep _ _ _ hnound]
  simp [hparse]

theorem filterMap_parse_checkpoints (month : String) (hm : '_' ∉ month.data)
    (counts : List ℤ) :
    (counts.map (checkpointName month)).filterMap
      (fun bf => ((chSplit '_' bf.data).get? 1).bind parsePyInt?) = counts := by
  induction counts with
  | nil => rfl
  | cons c cs ih =>
    simp only [List.map_cons, List.filterMap_cons, parse_checkpoint_idx month hm c, ih]

theorem foldl_max_mem (cs : List ℤ) : ∀ c : ℤ, cs.foldl max c ∈ c :: cs := by
  induction cs with
  | nil => intro c; simp
  | cons y ys ih =>
    intro c
    simp only [List.foldl_cons]
    rcases List.mem_cons.mp (ih (max c y)) with h | h
    · rw [h]
      rcases max_choice c y with hm | hm <;> rw [hm] <;> simp
    · simp [h]

theorem le_foldl_max (cs : List ℤ) : ∀ (c x : ℤ), x ∈ c :: cs → x ≤ cs.foldl max c := by
  induction cs with
  | nil =>
    intro c x hx
    simp at hx
    simp [hx]
  | cons y ys ih =>
    intro c x hx
    simp only [List.foldl_cons]
    rcases List.mem_cons.mp hx with h | h
    · exact le_trans (h ▸ le_max_left c y) (ih (max c y) _ (List.mem_cons_self _ _))
    · rcases List.mem_cons.mp h with h' | h'
      · exact le_trans (h' ▸ le_max_right c y) (ih (max c y) _ (List.mem_cons_self _ _))
      · exact ih (max c y) x (List.mem_cons_of_mem _ h')

theorem resume_backup_selects_max (month : String) (hm : '_' ∉ month.data)
    (c : ℤ) (cs : List ℤ) (fs : String → Option (List PyDict)) (l : List PyDict)
    (hfs : fs (checkpointName month (cs.foldl max c)) = some l) :
    resume_backup ((c :: cs).map (checkpointName month)) fs month =
      some (cs.foldl max c, l) := by
  have hmatch : ∀ x ∈ (c :: cs).map (checkpointName month),
      matchesBackupGlob month x = true := by
    intro x hx
    obtain ⟨i, -, rfl⟩ := List.mem_map.mp hx
    exact matchesBackupGlob_checkpointName month i
  have hfilter : ((c :: cs).map (checkpointName month)).filter
      (fun f => matchesBackupGlob month f) = (c :: cs).map (checkpointName month) :=
    List.filter_eq_self.mpr hmatch
  simp only [resume_backup, hfilter]
  rw [filterMap_parse_checkpoints month hm (c :: cs)]
  simp only [List.map_cons, List.isEmpty_cons, Bool.false_eq_true, if_neg, hfs]
  simp

/-- C5: with no checkpoint files `resume_backup` returns offset zero
and an empty list; with a directory of checkpoint files for the month
it parses the count segment of each name, selects the maximum count,
loads the checkpoint of that name, and returns that count as the
starting offset; every checkpoint the accumulation loop writes is
named by the length of the record list it contains (given the loop's
count/length invariant), so for checkpoints at counts 500 and 1000
resuming starts from the count-1000 checkpoint, whose loaded record
list has exactly 1000 entries. -/
theorem C5_resume_correctness :
    (∀ (fs : String → Option (List PyDict)) (month : String),
      resume_backup [] fs month = some (0, [])) ∧
    (∀ (month : String), '_' ∉ month.data →
      ∀ (c : ℤ) (cs : List ℤ) (fs : String → Option (List PyDict)) (l : List PyDict),
      fs (checkpointName month (cs.foldl max c)) = some l →
      resume_backup ((c :: cs).map (checkpointName month)) fs month =
        some (cs.foldl max c, l) ∧
      (∀ x ∈ c :: cs, x ≤ cs.foldl max c) ∧ cs.foldl max c ∈ c :: cs) ∧
    (∀ (month : String) (metadata : PyDict) (st : HarvestAcc) (nm : String)
      (data : List PyDict),
      st.total_processed = (st.monthly_articles.length : ℤ) →
      (appendArticle month metadata st).2 = some (nm, data) →
      nm = checkpointName month (data.length : ℤ) ∧
      (appendArticle month metadata st).1.total_processed =
        ((appendArticle month metadata st).1.monthly_articles.length : ℤ)) ∧
    (∀ (fs : String → Option (List PyDict)) (l500 l1000 : List PyDict),
      fs (checkpointName "MAY" 500) = some l500 →
      fs (checkpointName "MAY" 1000) = some l1000 →
      l1000.length = 1000 →
      resume_backup [checkpointName "MAY" 500, checkpointName "MAY" 1000] fs "MAY" =
        some (1000, l1000)) := by
  refine ⟨fun fs month => rfl, ?_, ?_, ?_⟩
  · intro month hm c cs fs l hfs
    exact ⟨resume_backup_selects_max month hm c cs fs l hfs, le_foldl_max cs c,
      foldl_max_mem cs c⟩
  · intro month metadata st nm data hinv hsome
    unfold appendArticle at hsome ⊢
    by_cases hmod : (st.total_processed + 1) % BACKUP_INTERVAL == 0
    · simp only [hmod, if_pos] at hsome
      obtain ⟨hnm, hdata⟩ := Prod.mk.injEq .. ▸ Option.some.injEq .. ▸ hsome
      constructor
      · rw [← hnm]
        congr 1
        rw [← hdata]
        simp [hinv]
      · simp [hinv]
    · simp [hmod] at hsome
  · intro fs l500 l1000 h5 h10 hlen
    have hmax : List.foldl max (500 : ℤ) [1000] = 1000 := by decide
    have h := resume_backup_selects_max "MAY" (by decide) 500 [1000] fs l1000
      (by rw [hmax]; exact h10)
    rw [hmax] at h
    simpa using h

/-- Witness for C5: the empty directory, a concrete directory with
checkpoints at counts 500 and 1000 (records modelled by empty dicts),
and a concrete checkpoint emission at count 500. -/
theorem C5_resume_correctness_witness :
    resume_backup ([] : List String) (fun _ => (none : Option (List PyDict))) "MAY" =
      some (0, []) ∧
    resume_backup [checkpointName "MAY" 500, checkpointName "MAY" 1000]
      (fun n =>
        if n = "MAY_500_comp_23_25.json" then some (List.replicate 500 ([] : PyDict))
        else if n = "MAY_1000_comp_23_25.json" then some (List.replicate 1000 [])
        else none)
      "MAY" = some (1000, List.replicate 1000 []) ∧
    (List.replicate 1000 ([] : PyDict)).length = 1000 ∧
    (appendArticle "MAY" [] ⟨List.replicate 499 [], 499⟩).2 =
      some (checkpointName "MAY" ((List.replicate 500 ([] : PyDict)).length : ℤ),
        List.replicate 500 []) := by
  refine ⟨C5_resume_correctness.1 (fun _ => none) "MAY", ?_, by simp, ?_⟩
  · have h10 : (fun n =>
        if n = "MAY_500_comp_23_25.json" then some (List.replicate 500 ([] : PyDict))
        else if n = "MAY_1000_comp_23_25.json" then some (List.replicate 1000 [])
        else none) (checkpointName "MAY" 1000) = some (List.replicate 1000 []) := by
      have : checkpointName "MAY" (1000 : ℤ) = "MAY_1000_comp_23_25.json" := by decide
      rw [this]
      rfl
    have h5 : (fun n =>
        if n = "MAY_500_comp_23_25.json" then some (List.replicate 500 ([] : PyDict))
        else if n = "MAY_1000_comp_23_25.json" then some (List.replicate 1000 [])
        else none) (checkpointName "MAY" 500) = some (List.replicate 500 []) := by
      have : checkpointName "MAY" (500 : ℤ) = "MAY_500_comp_23_25.json" := by decide
      rw [this]
      rfl
    exact C5_resume_correctness.2.2.2 _ _ _ h5 h10 (by simp)
  · have hemit := C5_resume_correctness.2.2.1 "MAY" [] ⟨List.replicate 499 [], 499⟩
      (checkpointName "MAY" 500) (List.replicate 499 [] ++ [[]]) (by simp) ?_
    · have hlen : ((List.replicate 499 ([] : PyDict) ++ [[]]) : List PyDict) =
          List.replicate 500 [] := by
        have : List.replicate 500 ([] : PyDict) = List.replicate 499 [] ++ [[]] := by
          rw [← List.replicate_succ']
        exact this.symm
      rw [show (appendArticle "MAY" [] ⟨List.replicate 499 [], 499⟩).2 =
          (if ((499 : ℤ) + 1) % BACKUP_INTERVAL == 0
           then some (checkpointName "MAY" (499 + 1), List.replicate 499 [] ++ [[]])
           else none) from rfl]
      rw [show (((499 : ℤ) + 1) % BACKUP_INTERVAL == 0) = true by decide]
      simp only [if_pos]
      rw [hlen]
      have : ((List.replicate 500 ([] : PyDict)).length : ℤ) = 500 := by simp
      rw [this]
      norm_num
    · rw [show (appendArticle "MAY" [] ⟨List.replicate 499 [], 499⟩).2 =
          (if ((499 : ℤ) + 1) % BACKUP_INTERVAL == 0
           then some (checkpointName "MAY" (499 + 1), List.replicate 499 [] ++ [[]])
           else none) from rfl]
      rw [show (((499 : ℤ) + 1) % BACKUP_INTERVAL == 0) = true by decide]
      simp only [if_pos]
      norm_num

/-- A response on which one attempt of the enrichment fetchers fails
and retries (cycling the key): a 429 status, an unparsable body, a
falsy body, or a dict body lacking the expected top-level key. -/
def respFailing (key : String) (r : HResp) : Bool :=
  r.status == 429 ||
    match r.body with
    | none => true
    | some j => !j.truthy ||
        (match j with
         | .obj fields => !(hasKey fields key)
         | _ => false)

theorem fetch_metadata_trace_bound (sid : String) :
    ∀ (n : ℕ) (s : Sess) (r : Option PyDict) (s' : Sess),
      fetch_metadata sid n s = some (r, s') →
      s'.trace.length ≤ s.trace.length + n := by
  intro n
  induction n with
  | zero =>
    intro s r s' h
    unfold fetch_metadata at h
    cases h
    omega
  | succ m ih =>
    intro s r s' h
    unfold fetch_metadata at h
    cases hnet : s.net with
    | nil => simp [httpGet, hnet] at h
    | cons resp rest =>
      simp only [httpGet, hnet, Option.pure_def, Option.bind_eq_bind, Option.some_bind] at h
      by_cases h429 : (resp.status == 429) = true
      · simp only [h429, if_pos] at h
        have hb := ih _ _ _ h
        simp [cycle_api_key] at hb
        omega
      · simp only [h429, Bool.false_eq_true, if_neg] at h
        cases hbody : resp.body with
        | none =>
          simp only [hbody] at h
          have hb := ih _ _ _ h
          simp [cycle_api_key] at hb
          omega
        | some j =>
          simp only [hbody] at h
          by_cases htr : (!j.truthy) = true
          · simp only [htr, if_pos] at h
            have hb := ih _ _ _ h
            simp [cycle_api_key] at hb
            omega
          · simp only [htr, Bool.false_eq_true, if_neg] at h
            cases hk : jHasKeyStr j "abstracts-retrieval-response" with
            | none => simp [hk] at h
            | some b =>
              simp only [hk, Option.pure_def, Option.bind_eq_bind, Option.some_bind] at h
              by_cases hb2 : (!b) = true
              · simp only [hb2, if_pos] at h
                have hb := ih _ _ _ h
                simp [cycle_api_key] at hb
                omega
              · simp only [hb2, Bool.false_eq_true, if_neg] at h
                cases j with
                | obj fields =>
                  cases hg : dictGet? fields "abstracts-retrieval-response" with
                  | none => simp [hg] at h
                  | some data =>
                    simp only [hg] at h
                    cases hbm : buildMetadata sid data with
                    | none => simp [hbm] at h
                    | some md =>
                      simp only [hbm, Option.map_some'] at h
                      cases h
                      simp
                | null => simp at h
                | bool b' => simp at h
                | num q => simp at h
                | str s0 => simp at h
                | arr xs => simp at h

theorem fetch_metadata_exhaust (sid : String) :
    ∀ (n : ℕ) (s : Sess),
      (∀ r ∈ s.net.take n, respFailing "abstracts-retrieval-response" r = true) →
      n ≤ s.net.length →
      (fetch_metadata sid n s).map Prod.fst = some none := by
  intro n
  induction n with
  | zero =>
    intro s _ _
    simp [fetch_metadata]
  | succ m ih =>
    intro s hfail hlen
    cases hnet : s.net with
    | nil =>
      rw [hnet] at hlen
      simp at hlen
    | cons resp rest =>
      have hr : respFailing "abstracts-retrieval-response" resp = true := by
        apply hfail
        rw [hnet, List.take_succ_cons]
        exact List.mem_cons_self _ _
      have hrest : ∀ r ∈ rest.take m, respFailing "abstracts-retrieval-response" r = true := by
        intro r hrm
        apply hfail
        rw [hnet, List.take_succ_cons]
        exact List.mem_cons_of_mem _ hrm
      have hlen' : m ≤ rest.length := by
        rw [hnet] at hlen
        simp at hlen
        omega
      unfold fetch_metadata
      simp only [httpGet, hnet, Option.pure_def, Option.bind_eq_bind, Option.some_bind]
      by_cases h429 : (resp.status == 429) = true
      · rw [if_pos h429]
        exact ih _ (by simpa [cycle_api_key] using hrest) (by simpa [cycle_api_key] using hlen')
      · rw [if_neg h429]
        cases hbody : resp.body with
        | none =>
          simp only [hbody]
          exact ih _ (by simpa [cycle_api_key] using hrest)
            (by simpa [cycle_api_key] using hlen')
        | some j =>
          simp only [hbody]
          by_cases htr : (!j.truthy) = true
          · rw [if_pos htr]
            exact ih _ (by simpa [cycle_api_key] using hrest)
              (by simpa [cycle_api_key] using hlen')
          · rw [if_neg htr]
            unfold respFailing at hr
            rw [hbody, Bool.or_eq_true] at hr
            rcases hr with h | h
            · exact absurd h h429
            · rw [Bool.or_eq_true] at h
              rcases h with h' | h'
              · exact absurd h' htr
              · cases j with
                | obj fields =>
                  have hkf : (!hasKey fields "abstracts-retrieval-response") = true := h'
                  simp only [jHasKeyStr, Option.pure_def, Option.bind_eq_bind,
                    Option.some_bind]
                  rw [if_pos hkf]
                  exact ih _ (by simpa [cycle_api_key] using hrest)
                    (by simpa [cycle_api_key] using hlen')
                | null => exact absurd h' (by simp)
                | bool b => exact absurd h' (by simp)
                | num q => exact absurd h' (by simp)
                | str s0 => exact absurd h' (by simp)
                | arr xs => exact absurd h' (by simp)

theorem fetch_abstract_trace_bound (sid : String) :
    ∀ (n : ℕ) (s : Sess) (v : JVal) (s' : Sess),
      fetch_abstract sid n s = some (v, s') →
      s'.trace.length ≤ s.trace.length + n := by
  intro n
  induction n with
  | zero =>
    intro s v s' h
    unfold fetch_abstract at h
    cases h
    omega
  | succ m ih =>
    intro s v s' h
    unfold fetch_abstract at h
    cases hnet : s.net with
    | nil => simp [httpGet, hnet] at h
    | cons resp rest =>
      simp only [httpGet, hnet, Option.pure_def, Option.bind_eq_bind, Option.some_bind] at h
      by_cases h429 : (resp.status == 429) = true
      · simp only [h429, if_pos] at h
        have hb := ih _ _ _ h
        simp [cycle_api_key] at hb
        omega
      · simp only [h429, Bool.false_eq_true, if_neg] at h
        cases hbody : resp.body with
        | none =>
          simp only [hbody] at h
          have hb := ih _ _ _ h
          simp [cycle_api_key] at hb
          omega
        | some j =>
          simp only [hbody] at h
          by_cases htr : (!j.truthy) = true
          · simp only [htr, if_pos] at h
            have hb := ih _ _ _ h
            simp [cycle_api_key] at hb
            omega
          · simp only [htr, Bool.false_eq_true, if_neg] at h
            cases hk : jHasKeyStr j "abstracts-retrieval-response" with
            | none => simp [hk] at h
            | some b =>
              simp only [hk, Option.pure_def, Option.bind_eq_bind, Option.some_bind] at h
              by_cases hb2 : (!b) = true
              · simp only [hb2, if_pos] at h
                have hb := ih _ _ _ h
                simp [cycle_api_key] at hb
                omega
              · simp only [hb2, Bool.false_eq_true, if_neg] at h
                cases j with
                | obj fields =>
                  cases hg : dictGet? fields "abstracts-retrieval-response" with
                  | none => simp [hg] at h
                  | some data =>
                    simp only [hg] at h
                    cases hc : jGetD data "coredata" (JVal.obj []) with
                    | none => simp [hc] at h
                    | some core =>
                      simp only [hc, Option.pure_def, Option.bind_eq_bind,
                        Option.some_bind] at h
                      cases hd : jGetD core "dc:description" (JVal.str "N/A") with
                      | none => simp [hd] at h
                      | some desc =>
                        simp only [hd, Option.pure_def, Option.bind_eq_bind,
                          Option.some_bind] at h
                        cases h
                        simp
                | null => simp at h
                | bool b' => simp at h
                | num q => simp at h
                | str s0 => simp at h
                | arr xs => simp at h

theorem fetch_abstract_exhaust (sid : String) :
    ∀ (n : ℕ) (s : Sess),
      (∀ r ∈ s.net.take n, respFailing "abstracts-retrieval-response" r = true) →
      n ≤ s.net.length →
      (fetch_abstract sid n s).map Prod.fst = some (JVal.str "N/A") := by
  intro n
  induction n with
  | zero =>
    intro s _ _
    simp [fetch_abstract]
  | succ m ih =>
    intro s hfail hlen
    cases hnet : s.net with
    | nil =>
      rw [hnet] at hlen
      simp at hlen
    | cons resp rest =>
      have hr : respFailing "abstracts-retrieval-response" resp = true := by
        apply hfail
        rw [hnet, List.take_succ_cons]
        exact List.mem_cons_self _ _
      have hrest : ∀ r ∈ rest.take m, respFailing "abstracts-retrieval-response" r = true := by
        intro r hrm
        apply hfail
        rw [hnet, List.take_succ_cons]
        exact List.mem_cons_of_mem _ hrm
      have hlen' : m ≤ rest.length := by
        rw [hnet] at hlen
        simp at hlen
        omega
      unfold fetch_abstract
      simp only [httpGet, hnet, Option.pure_def, Option.bind_eq_bind, Option.some_bind]
      by_cases h429 : (resp.status == 429) = true
      · rw [if_pos h429]
        exact ih _ (by simpa [cycle_api_key] using hrest) (by simpa [cycle_api_key] using hlen')
      · rw [if_neg h429]
        cases hbody : resp.body with
        | none =>
          simp only [hbody]
          exact ih _ (by simpa [cycle_api_key] using hrest)
            (by simpa [cycle_api_key] using hlen')
        | some j =>
          simp only [hbody]
          by_cases htr : (!j.truthy) = true
          · rw [if_pos htr]
            exact ih _ (by simpa [cycle_api_key] using hrest)
              (by simpa [cycle_api_key] using hlen')
          · rw [if_neg htr]
            unfold respFailing at hr
            rw [hbody, Bool.or_eq_true] at hr
            rcases hr with h | h
            · exact absurd h h429
            · rw [Bool.or_eq_true] at h
              rcases h with h' | h'
              · exact absurd h' htr
              · cases j with
                | obj fields =>
                  have hkf : (!hasKey fields "abstracts-retrieval-response") = true := h'
                  simp only [jHasKeyStr, Option.pure_def, Option.bind_eq_bind,
                    Option.some_bind]
                  rw [if_pos hkf]
                  exact ih _ (by simpa [cycle_api_key] using hrest)
                    (by simpa [cycle_api_key] using hlen')
                | null => exact absurd h' (by simp)
                | bool b => exact absurd h' (by simp)
                | num q => exact absurd h' (by simp)
                | str s0 => exact absurd h' (by simp)
                | arr xs => exact absurd h' (by simp)

theorem fetch_citations_exhaust (sid : String) :
    ∀ (n : ℕ) (s : Sess),
      (∀ r ∈ s.net.take n, respFailing "search-results" r = true) →
      n ≤ s.net.length →
      (fetch_citations sid n s).map Prod.fst = some [("citations", JVal.arr [])] := by
  intro n
  induction n with
  | zero =>
    intro s _ _
    simp [fetch_citations]
  | succ m ih =>
    intro s hfail hlen
    cases hnet : s.net with
    | nil =>
      rw [hnet] at hlen
      simp at hlen
    | cons resp rest =>
      have hr : respFailing "search-results" resp = true := by
        apply hfail
        rw [hnet, List.take_succ_cons]
        exact List.mem_cons_self _ _
      have hrest : ∀ r ∈ rest.take m, respFailing "search-results" r = true := by
        intro r hrm
        apply hfail
        rw [hnet, List.take_succ_cons]
        exact List.mem_cons_of_mem _ hrm
      have hlen' : m ≤ rest.length := by
        rw [hnet] at hlen
        simp at hlen
        omega
      unfold fetch_citations
      simp only [httpGet, hnet, Option.pure_def, Option.bind_eq_bind, Option.some_bind]
      by_cases h429 : (resp.status == 429) = true
      · rw [if_pos h429]
        exact ih _ (by simpa [cycle_api_key] using hrest) (by simpa [cycle_api_key] using hlen')
      · rw [if_neg h429]
        cases hbody : resp.body with
        | none =>
          simp only [hbody]
          exact ih _ (by simpa [cycle_api_key] using hrest)
            (by simpa [cycle_api_key] using hlen')
        | some j =>
          simp only [hbody]
          by_cases htr : (!j.truthy) = true
          · rw [if_pos htr]
            exact ih _ (by simpa [cycle_api_key] using hrest)
              (by simpa [cycle_api_key] using hlen')
          · rw [if_neg htr]
            unfold respFailing at hr
            rw [hbody, Bool.or_eq_true] at hr
            rcases hr with h | h
            · exact absurd h h429
            · rw [Bool.or_eq_true] at h
              rcases h with h' | h'
              · exact absurd h' htr
              · cases j with
                | obj fields =>
                  have hkf : (!hasKey fields "search-results") = true := h'
                  simp only [jHasKeyStr, Option.pure_def, Option.bind_eq_bind,
                    Option.some_bind]
                  rw [if_pos hkf]
                  exact ih _ (by simpa [cycle_api_key] using hrest)
                    (by simpa [cycle_api_key] using hlen')
                | null => exact absurd h' (by simp)
                | bool b => exact absurd h' (by simp)
                | num q => exact absurd h' (by simp)
                | str s0 => exact absurd h' (by simp)
                | arr xs => exact absurd h' (by simp)

theorem fetch_citations_trace_bound (sid : String) :
    ∀ (n : ℕ) (s : Sess) (cd : PyDict) (s' : Sess),
      fetch_citations sid n s = some (cd, s') →
      s'.trace.length ≤ s.trace.length + n := by
  intro n
  induction n with
  | zero =>
    intro s cd s' h
    unfold fetch_citations at h
    cases h
    omega
  | succ m ih =>
    intro s cd s' h
    unfold fetch_citations at h
    cases hnet : s.net with
    | nil => simp [httpGet, hnet] at h
    | cons resp rest =>
      simp only [httpGet, hnet, Option.pure_def, Option.bind_eq_bind, Option.some_bind] at h
      by_cases h429 : (resp.status == 429) = true
      · simp only [h429, if_pos] at h
        have hb := ih _ _ _ h
        simp [cycle_api_key] at hb
        omega
      · simp only [h429, Bool.false_eq_true, if_neg] at h
        cases hbody : resp.body with
        | none =>
          simp only [hbody] at h
          have hb := ih _ _ _ h
          simp [cycle_api_key] at hb
          omega
        | some j =>
          simp only [hbody] at h
          by_cases htr : (!j.truthy) = true
          · simp only [htr, if_pos] at h
            have hb := ih _ _ _ h
            simp [cycle_api_key] at hb
            omega
          · simp only [htr, Bool.false_eq_true, if_neg] at h
            cases hk : jHasKeyStr j "search-results" with
            | none => simp [hk] at h
            | some b =>
              simp only [hk, Option.pure_def, Option.bind_eq_bind, Option.some_bind] at h
              by_cases hb2 : (!b) = true
              · simp only [hb2, if_pos] at h
                have hb := ih _ _ _ h
                simp [cycle_api_key] at hb
                omega
              · simp only [hb2, Bool.false_eq_true, if_neg] at h
                cases hsr : jGetD j "search-results" (JVal.obj []) with
                | none => simp [hsr] at h
                | some sr =>
                  simp only [hsr, Option.pure_def, Option.bind_eq_bind,
                    Option.some_bind] at h
                  cases he : jGetD sr "entry" (JVal.arr []) with
                  | none => simp [he] at h
                  | some entriesV =>
                    simp only [he, Option.pure_def, Option.bind_eq_bind,
                      Option.some_bind] at h
                    cases entriesV with
                    | arr es =>
                      simp at h
                      cases hm : List.mapM.loop buildCitation es [] with
                      | none =>
                        rw [hm] at h
                        simp at h
                      | some cits =>
                        rw [hm] at h
                        simp at h
                        rcases h with ⟨-, h2⟩
                        rw [← h2]
                        simp
                    | null => simp at h
                    | bool b' => simp at h
                    | num q => simp at h
                    | str s0 => simp at h
                    | obj fs => simp at h

theorem processEntry_skip (month : String) (e : PyDict) (st : MainState)
    (sid0 : String) (s' : Sess)
    (hid : dictGetD e "dc:identifier" (JVal.str "") = JVal.str sid0)
    (hmd : fetch_metadata (pyReplace sid0 "SCOPUS_ID:" "") 3 st.sess = some (none, s')) :
    processEntry month (JVal.obj e) st = some { st with sess := s' } ∧
    ∀ es : List JVal, processEntriesMain month (JVal.obj e :: es) st =
      processEntriesMain month es { st with sess := s' } := by
  have h1 : processEntry month (JVal.obj e) st = some { st with sess := s' } := by
    simp only [processEntry, hid, Option.pure_def, Option.bind_eq_bind, Option.some_bind, hmd]
  refine ⟨h1, fun es => ?_⟩
  unfold processEntriesMain
  simp only [h1, Option.pure_def, Option.bind_eq_bind, Option.some_bind]
  cases es <;> rfl

/-- C8: each enrichment call issues at most its retry count of HTTP
requests (the request trace grows by at most the retry count, and the
calls are made with the fixed count 3); when every available attempt
fails (a 429, an unparsable body, a falsy body, or a body lacking the
expected key) the call returns Python None for metadata, the string
"N/A" for an abstract, and a dict with an empty citations list for
citations, rather than raising; and a search entry whose metadata
fetch returns None is skipped: the loop state is unchanged apart from
the session, and processing continues with the page's remaining
entries, so one record's enrichment failure never aborts the bucket's
run. -/
theorem C8_retry_exhaustion_nonfatal :
    (∀ (sid : String) (n : ℕ) (s : Sess) (r : Option PyDict) (s' : Sess),
      fetch_metadata sid n s = some (r, s') → s'.trace.length ≤ s.trace.length + n) ∧
    (∀ (sid : String) (n : ℕ) (s : Sess) (v : JVal) (s' : Sess),
      fetch_abstract sid n s = some (v, s') → s'.trace.length ≤ s.trace.length + n) ∧
    (∀ (sid : String) (n : ℕ) (s : Sess) (cd : PyDict) (s' : Sess),
      fetch_citations sid n s = some (cd, s') → s'.trace.length ≤ s.trace.length + n) ∧
    (∀ (sid : String) (s : Sess),
      (∀ r ∈ s.net.take 3, respFailing "abstracts-retrieval-response" r = true) →
      3 ≤ s.net.length →
      (fetch_metadata sid 3 s).map Prod.fst = some none) ∧
    (∀ (sid : String) (s : Sess),
      (∀ r ∈ s.net.take 3, respFailing "abstracts-retrieval-response" r = true) →
      3 ≤ s.net.length →
      (fetch_abstract sid 3 s).map Prod.fst = some (JVal.str "N/A")) ∧
    (∀ (sid : String) (s : Sess),
      (∀ r ∈ s.net.take 3, respFailing "search-results" r = true) →
      3 ≤ s.net.length →
      (fetch_citations sid 3 s).map Prod.fst = some [("citations", JVal.arr [])]) ∧
    (∀ (month : String) (e : PyDict) (st : MainState) (sid0 : String) (s' : Sess),
      dictGetD e "dc:identifier" (JVal.str "") = JVal.str sid0 →
      fetch_metadata (pyReplace sid0 "SCOPUS_ID:" "") 3 st.sess = some (none, s') →
      processEntry month (JVal.obj e) st = some { st with sess := s' } ∧
      ∀ es : List JVal, processEntriesMain month (JVal.obj e :: es) st =
        processEntriesMain month es { st with sess := s' }) :=
  ⟨fun sid n => fetch_metadata_trace_bound sid n,
   fun sid n => fetch_abstract_trace_bound sid n,
   fun sid n => fetch_citations_trace_bound sid n,
   fun sid s => fetch_metadata_exhaust sid 3 s,
   fun sid s => fetch_abstract_exhaust sid 3 s,
   fun sid s => fetch_citations_exhaust sid 3 s,
   fun month e st sid0 s' hid hmd => processEntry_skip month e st sid0 s' hid hmd⟩

/-- Session for the C8 witness: a 429, an unparsable body, a body
without the expected key, then one spare response. -/
def c8s : Sess :=
  ⟨[⟨429, some (JVal.obj [])⟩, ⟨200, none⟩, ⟨200, some (JVal.obj [("foo", JVal.null)])⟩,
    ⟨200, some (JVal.obj [])⟩], 0, 2, []⟩

/-- Final session of the C8 witness's exhausted metadata fetch. -/
def c8sF : Sess :=
  ⟨[⟨200, some (JVal.obj [])⟩], 1, 2,
   [(HReq.abstractReq "85", 0), (HReq.abstractReq "85", 1), (HReq.abstractReq "85", 0)]⟩

/-- Witness for C8 on a session whose first three responses all fail:
the three fetch calls return their empty results, the traced attempts
are at most 3, and a search entry whose metadata fetch fails is
skipped with the loop state otherwise unchanged. -/
theorem C8_retry_exhaustion_nonfatal_witness :
    (fetch_metadata "85" 3 c8s).map Prod.fst = some none ∧
    (fetch_abstract "85" 3 c8s).map Prod.fst = some (JVal.str "N/A") ∧
    (fetch_citations "85" 3 c8s).map Prod.fst = some [("citations", JVal.arr [])] ∧
    c8sF.trace.length ≤ c8s.trace.length + 3 ∧
    processEntry "MAY" (JVal.obj [("dc:identifier", JVal.str "SCOPUS_ID:85")])
      ⟨c8s, [], 0, 0, []⟩ = some ⟨c8sF, [], 0, 0, []⟩ := by
  refine ⟨C8_retry_exhaustion_nonfatal.2.2.2.1 "85" c8s (by decide) (by decide),
    C8_retry_exhaustion_nonfatal.2.2.2.2.1 "85" c8s (by decide) (by decide),
    C8_retry_exhaustion_nonfatal.2.2.2.2.2.1 "85" c8s (by decide) (by decide),
    C8_retry_exhaustion_nonfatal.1 "85" 3 c8s none c8sF (by decide), ?_⟩
  have h := (C8_retry_exhaustion_nonfatal.2.2.2.2.2.2 "MAY"
    [("dc:identifier", JVal.str "SCOPUS_ID:85")] ⟨c8s, [], 0, 0, []⟩ "SCOPUS_ID:85" c8sF
    (by decide) (by decide)).1
  exact h

theorem finalOutputName_data (month : String) :
    (finalOutputName month).data = month.data ++ "_comp_23_25.json".data := by
  simp [finalOutputName]

/-- The final output file `MONTH_comp_23_25.json` never matches the
checkpoint glob `MONTH_*_comp_23_25.json`: it is one character too
short for both the literal prefix and the literal suffix to fit. -/
theorem matchesBackupGlob_finalOutputName (month : String) :
    matchesBackupGlob month (finalOutputName month) = false := by
  unfold matchesBackupGlob
  have hlen : (finalOutputName month).data.length = month.data.length + 16 := by
    rw [finalOutputName_data]
    simp
  have h16 : "_comp_23_25.json".data.length = 16 := rfl
  have hd : decide (month.data.length + 1 + "_comp_23_25.json".data.length ≤
      (finalOutputName month).data.length) = false := by
    rw [hlen, h16]
    exact decide_eq_false (by omega)
  rw [hd]
  simp

/-- Adding the month's final output file to the bucket directory does
not change what the patch's resume step finds. -/
theorem resume_backup_ignores_final (dirFiles : List String)
    (fs : String → Option (List PyDict)) (month : String) :
    resume_backup (finalOutputName month :: dirFiles) fs month =
      resume_backup dirFiles fs month := by
  unfold resume_backup
  rw [List.filter_cons_of_neg]
  simp [matchesBackupGlob_finalOutputName]

/-- Counterexample to C6: the patch script's month loop has no check of
the final output file.  With the directory containing exactly the final
output `MAY_comp_23_25.json` and the network scripted with a single
empty result page, the patch run still issues one HTTP request (its
request trace has length 1) instead of skipping the bucket. -/
theorem C6_counterexample :
    (patchBucket [finalOutputName "MAY"] (fun _ => (none : Option (List PyDict)))
        "Q" "MAY" 1
        ⟨[⟨200, some (JVal.obj [("search-results", JVal.obj [("entry", JVal.arr [])])])⟩],
         0, 1, []⟩).map
      (fun p => p.1.trace.length) = some 1 := by
  rfl

/-- C6 amended: in the main script, a month whose final output file
already exists is skipped outright — the session (hence the request
trace and the remaining scripted responses) is returned unchanged and
no file is written; the patch script has no such guard: its month run
is entirely insensitive to the presence of the final output file in
the bucket directory, so it re-issues the month's HTTP requests
regardless. -/
theorem C6_amended :
    (∀ (dirFiles : List String) (fs : String → Option (List PyDict))
        (query month : String) (fuel : ℕ) (sess : Sess),
      mainBucket true dirFiles fs query month fuel sess =
        some (BucketOutcome.skipped, sess, [])) ∧
    (∀ (dirFiles : List String) (fs : String → Option (List PyDict))
        (query month : String) (fuel : ℕ) (sess : Sess),
      patchBucket (finalOutputName month :: dirFiles) fs query month fuel sess =
        patchBucket dirFiles fs query month fuel sess) := by
  constructor
  · intro dirFiles fs query month fuel sess
    rfl
  · intro dirFiles fs query month fuel sess
    unfold patchBucket
    rw [resume_backup_ignores_final]

/-- Counterexample to C7: in the main script's pagination loop a 429
page response does not rotate the key or retry.  With the network
scripted as a 429 (with parsable body) followed by an ordinary result
page, the loop terminates at once: the returned state still has key
index 0 (the pointer never advanced), its trace holds exactly one
request (the page was not retried), and the non-429 response is left
unconsumed — the loop ended before any non-429 response was received
and with fuel to spare. -/
theorem C7_counterexample :
    mainLoop "Q" "MAY" 5
      ⟨⟨[⟨429, some (JVal.obj [])⟩,
         ⟨200, some (JVal.obj [("search-results", JVal.obj [("entry", JVal.arr [])])])⟩],
        0, 2, []⟩, [], 0, 0, []⟩ =
      some ⟨⟨[⟨200, some (JVal.obj [("search-results", JVal.obj [("entry", JVal.arr [])])])⟩],
             0, 2, [(HReq.search "Q" 0, 0)]⟩, [], 0, 0, []⟩ := by
  rfl

/-- C7 amended: the two pagination loops treat a 429 page response
differently.  In the patch script's loop a 429 advances the credential
pointer by exactly one modulo the pool size and the loop continues
with the same offset (the next request re-asks the same page), with
only the retry fuel decreasing.  In the main script's loop any
non-200 response whose body parses — a 429 included — terminates the
month's pagination immediately: the state is returned with the key
index unchanged and just that one request traced. -/
theorem C7_amended :
    (∀ (query month : String) (fuel : ℕ) (st : PatchState) (b : Option JVal)
        (rest : List HResp),
      st.sess.net = ⟨429, b⟩ :: rest →
      patchLoop query month (fuel + 1) st =
        patchLoop query month fuel
          { st with sess :=
              ⟨rest, (st.sess.keyIdx + 1) % st.sess.nKeys, st.sess.nKeys,
               st.sess.trace ++ [(HReq.search query st.start, st.sess.keyIdx)]⟩ }) ∧
    (∀ (query month : String) (fuel : ℕ) (st : MainState) (code : ℕ) (j : JVal)
        (rest : List HResp),
      st.sess.net = ⟨code, some j⟩ :: rest →
      code ≠ 200 →
      st.current_offset < 5000 →
      mainLoop query month (fuel + 1) st =
        some { st with sess :=
          ⟨rest, st.sess.keyIdx, st.sess.nKeys,
           st.sess.trace ++ [(HReq.search query st.current_offset, st.sess.keyIdx)]⟩ }) := by
  constructor
  · intro query month fuel st b rest hnet
    simp only [patchLoop, httpGet, hnet, Option.pure_def, Option.bind_eq_bind,
      Option.some_bind]
    rfl
  · intro query month fuel st code j rest hnet hcode hoff
    have hb : (code != 200) = true := bne_iff_ne.mpr hcode
    simp only [mainLoop, httpGet, hnet, Option.pure_def, Option.bind_eq_bind,
      Option.some_bind]
    rw [if_pos hoff, if_pos hb]

/-- Witness for the amended C7 at concrete states: a 429 in the patch
loop cycles the key from 0 to 1, re-requests offset 0 and continues;
the same 429 in the main loop ends the month at once with key index
still 0. -/
theorem C7_amended_witness :
    patchLoop "Q" "MAY" 2
      ⟨⟨[⟨429, some (JVal.obj [])⟩,
         ⟨200, some (JVal.obj [("search-results", JVal.obj [("entry", JVal.arr [])])])⟩],
        0, 3, []⟩, [], 0, []⟩ =
      patchLoop "Q" "MAY" 1
        ⟨⟨[⟨200, some (JVal.obj [("search-results", JVal.obj [("entry", JVal.arr [])])])⟩],
          1, 3, [(HReq.search "Q" 0, 0)]⟩, [], 0, []⟩ ∧
    mainLoop "Q" "MAY" 1 ⟨⟨[⟨429, some (JVal.obj [])⟩], 0, 3, []⟩, [], 0, 0, []⟩ =
      some ⟨⟨[], 0, 3, [(HReq.search "Q" 0, 0)]⟩, [], 0, 0, []⟩ :=
  ⟨C7_amended.1 "Q" "MAY" 1
      ⟨⟨[⟨429, some (JVal.obj [])⟩,
         ⟨200, some (JVal.obj [("search-results", JVal.obj [("entry", JVal.arr [])])])⟩],
        0, 3, []⟩, [], 0, []⟩ (some (JVal.obj [])) _ rfl,
   C7_amended.2 "Q" "MAY" 0 ⟨⟨[⟨429, some (JVal.obj [])⟩], 0, 3, []⟩, [], 0, 0, []⟩
      429 (JVal.obj []) [] rfl (by decide) (by decide)⟩
